import Mathlib

/-!
# d64cli: the command handlers of `main.cpp` over an abstract image engine

`main.cpp` is the command-line front end of a D64 disk-image tool.  The image
engine itself (`class d64`, declared in `d64.h`) is not part of `main.cpp`; the
handlers only call it.  The embedding therefore takes the engine as a parameter
(`Engine`) and models each handler as a function from the program state to the
new program state together with the list of engine calls and error messages the
handler issues, in program order.

* `std::string` is a list of character codes (`Str`); `char` values are the
  numbers `0..255`.
* the global variables of `main.cpp` are the fields of `St`.
* `std::cout` texts are not modelled, except the overwrite prompt of
  `copyFiles`; every `std::cerr` line is an `Event.cerr`.
* `std::cin` is the list of characters still to be extracted; the confirmation
  loop of `copyFiles` does not end when that list runs out, which the state
  records as `hung`.
* `handleReorder` calls itself; it is observed up to a call depth and its result
  says whether the call has returned, has thrown or is still running (`Ran`).
  The global `program` is the parameter `Program`.
* `executeCommand` is the normalisation of the parameter list (`normalize`), the
  look-up and the choice of the call (`dispatch`), and the call itself
  (`Call.run`).
-/

namespace D64

/-- A `std::string`: the list of its character codes. -/
abbrev Str := List Nat

/-- String literal as a list of character codes. -/
def str (s : String) : Str := s.toList.map Char.toNat

/-! ## `<cctype>` and `std::string` members used by `main.cpp` -/

/-- C `toupper` in the "C" locale: `a..z` are mapped to `A..Z`, every other code
(also those above 127) is returned as it is. -/
def toupper (c : Nat) : Nat := if 97 ≤ c ∧ c ≤ 122 then c - 32 else c

/-- C `ispunct` in the "C" locale: the printable characters that are neither
alphanumeric nor the space (no code above 127). -/
def ispunct (c : Nat) : Bool :=
  (33 ≤ c && c ≤ 47) || (58 ≤ c && c ≤ 64) || (91 ≤ c && c ≤ 96) || (123 ≤ c && c ≤ 126)

/-- Member `std::string::ends_with(suffix)`. -/
def ends_with (s suffix : Str) : Bool :=
  decide (suffix.length ≤ s.length) && (s.drop (s.length - suffix.length) == suffix)

/-- Member `std::string::substr(pos)`, for `pos <= size()`. -/
def substr1 (s : Str) (pos : Nat) : Str := s.drop pos

/-- Member `std::string::substr(pos, count)`, for `pos <= size()`.  `count` is an
`int` expression converted to `size_t`: a negative value becomes a huge count,
so the rest of the string is taken. -/
def substr2 (s : Str) (pos : Nat) (count : Int) : Str :=
  if count < 0 then s.drop pos else (s.drop pos).take count.toNat

/-! ## Types of `main.cpp` and of the engine interface -/

/-- The `enum ComformationType` of `main.cpp` (lines 12-17). -/
inductive ComformationType
  | overwrite_file
  | skip_file
  | overwrite_all
  | skip_all
  deriving DecidableEq, Repr

/-- Modelled from the spec: `enum FileTypes` is declared in `d64.h`, which is not
part of `main.cpp`; its values are the file-type numbers of the directory entry
(0 = DEL, 1 = SEQ, 2 = PRG, 3 = USR, 4 = REL). -/
abbrev FileTypes := Nat

/-- File type DEL. -/
def FileTypes.DEL : FileTypes := 0
/-- File type SEQ. -/
def FileTypes.SEQ : FileTypes := 1
/-- File type PRG. -/
def FileTypes.PRG : FileTypes := 2
/-- File type USR. -/
def FileTypes.USR : FileTypes := 3
/-- File type REL. -/
def FileTypes.REL : FileTypes := 4

/-- The fields of a directory entry that `main.cpp` reads: `file_name`,
`file_type` (the whole type byte) and the two bytes of `file_size`. -/
structure DirEntry where
  file_name : Str
  file_type : Nat
  file_size0 : Nat
  file_size1 : Nat
  deriving DecidableEq, Repr

/-- The member functions of `class d64` (and the host file access) that the
handlers call.  `D` is the in-memory image, `W` the host file system.  A member
that returns `bool` and may change the image returns the new image and the
flag. -/
structure Engine (D W : Type) where
  /-- Default-constructed `d64 disk;`. -/
  init : D
  /-- Call `disk.load(name)`. -/
  load : D → W → Str → D × Bool
  /-- Call `disk.save(name)`. -/
  save : D → W → Str → W × Bool
  /-- Call `disk.formatDisk(name)`; `none` is an argument that is not a valid
  C string. -/
  formatDisk : D → Option Str → D
  /-- Call `disk.rename_disk(name)`. -/
  rename_disk : D → Str → D × Bool
  /-- Call `disk.addFile(name, type, data)`. -/
  addFile : D → Str → FileTypes → List Nat → D × Bool
  /-- Call `disk.addRelFile(name, type, recordsize, data)`. -/
  addRelFile : D → Str → FileTypes → Int → List Nat → D × Bool
  /-- Call `disk.lockfile(name, flag)`. -/
  lockfile : D → Str → Bool → D × Bool
  /-- Call `disk.removeFile(name)`. -/
  removeFile : D → Str → D × Bool
  /-- Call `disk.findFile(name)`. -/
  findFile : D → Str → Option DirEntry
  /-- Call `disk.readFile(name)`. -/
  readFile : D → Str → Option (List Nat)
  /-- Call `disk.directory()`. -/
  directory : D → List DirEntry
  /-- Call `disk.getFreeSectorCount()`. -/
  getFreeSectorCount : D → Nat
  /-- Static `d64::Trim(name)`. -/
  Trim : Str → Str
  /-- Opening `std::ifstream fs(filename, std::ios::binary)` and reading the whole
  file: `none` when the file does not open. -/
  ifstream : W → Str → Option (List Nat)
  /-- Constructor `d64 disk(disktype)`: `true` for `diskType::forty_track`. -/
  ofType : Bool → D
  /-- Call `disk.extractFile(name)`, which writes a host file. -/
  extractFile : D → W → Str → W × Bool
  /-- Call `disk.renameFile(oldname, newname)`. -/
  renameFile : D → Str → Str → D × Bool
  /-- Call `disk.verifyBAMIntegrity(fix, logfile)`. -/
  verifyBAMIntegrity : D → Bool → Str → D × Bool
  /-- Call `disk.compactDirectory()`. -/
  compactDirectory : D → D × Bool
  /-- Call `disk.reorderDirectory(order)`. -/
  reorderDirectory : D → List Str → D × Bool
  /-- Call `disk.readSector(track, sector)`. -/
  readSector : D → Int → Int → Option (List Nat)

/-- The `d64` objects of `main.cpp`: `disk` of the single-disk handlers,
`target` of `handleBackup`, `sourceDisk` and `targetDisk` of `Backup`. -/
inductive Obj
  | disk
  | target
  | sourceDisk
  | targetDisk
  deriving DecidableEq, Repr

/-- The `std::cerr` lines of the modelled handlers. -/
inductive Msg
  | unableToOpen (filename : Str)
  | useAddRel
  | unknownFileType
  | failedToAdd
  | couldNotLoad
  | couldNotLock
  | couldNotUnlock
  | failedToLoadDisks
  | failedToCopy (filename : Str)
  | backupFailed
  | failedToLoad
  | failedToCreate
  | couldNotReadSector (track sector : Int)
  | couldNotExtract
  | couldNotRemove
  | couldNotRename
  | errorsInBAM
  | compactionFailed
  | couldNotReorder
  | couldNotRenameDisk
  | unknownCommand (command : Str)
  | missingParameters (command : Str)
  deriving DecidableEq, Repr

/-- What a handler does, in program order: the engine calls that load, change or
write an image (queries such as `findFile` are not recorded), the overwrite
prompt, and the error lines. -/
inductive Event
  | load (o : Obj) (name : Str) (ok : Bool)
  | save (o : Obj) (name : Str)
  | formatDisk (o : Obj) (name : Option Str)
  | rename_disk (o : Obj) (name : Str)
  | addFile (o : Obj) (name : Str) (type : FileTypes) (data : List Nat)
  | addRelFile (o : Obj) (name : Str) (type : FileTypes) (recordsize : Int) (data : List Nat)
  | lockfile (o : Obj) (name : Str) (flag : Bool)
  | removeFile (o : Obj) (name : Str)
  | prompt (filename : Str)
  | cerr (m : Msg)
  | extractFile (o : Obj) (name : Str)
  | renameFile (o : Obj) (oldname newname : Str)
  | verifyBAMIntegrity (o : Obj) (fix : Bool)
  | compactDirectory (o : Obj)
  | reorderDirectory (o : Obj) (order : List Str)
  deriving DecidableEq, Repr

/-- The global variables of `main.cpp` (lines 19-23), the host file system, the
characters that successive `std::cin >> response` extractions deliver, and
`hung`: the program is in a loop it never leaves. -/
structure St (W : Type) where
  conformation : ComformationType
  diskname : Str
  backup_disk_num : Nat
  target_backup_base_name : Str
  world : W
  cin : List Nat
  hung : Bool

/-! ## `handleAdd` and `handleAddRel`: the name scan -/

/-- The variables of the scan loop (lines 208-223): `index` is `none` for `-1`. -/
structure Scan where
  name : Str
  index : Option Nat
  endindex : Nat
  deriving DecidableEq, Repr

/-- The `while (index >= 0)` loop of lines 211-223 (the same text as lines
288-300), entered with `index = i - 1`. -/
def scanLoop : Nat → Str → Nat → Scan
  | 0, name, endindex => ⟨name, none, endindex⟩
  | i + 1, name, endindex =>
    let name := name.set i (toupper (name.getD i 0))
    if endindex = 0 ∧ name.getD i 0 = 46 then
      scanLoop i name i
    else if ispunct (name.getD i 0) then
      ⟨name, some i, endindex⟩
    else
      scanLoop i name endindex

/-- Lines 208-223: `name = filename`, `index = size - 1`, `endindex = 0`, then
the loop. -/
def scanName (filename : Str) : Scan := scanLoop filename.length filename 0

/-- Value of `index + 1` after the loop. -/
def Scan.start (sc : Scan) : Nat :=
  match sc.index with
  | none => 0
  | some i => i + 1

/-- Line 241 (and 304):
`(endindex == 0) ? name.substr(index + 1) : name.substr(index + 1, (endindex - 1) - index)`. -/
def Scan.result (sc : Scan) : Str :=
  if sc.endindex = 0 then substr1 sc.name sc.start
  else substr2 sc.name sc.start (((sc.endindex : Int) - 1) - ((sc.start : Int) - 1))

/-- The file name that `handleAdd` and `handleAddRel` hand to the engine. -/
def engineName (filename : Str) : Str := (scanName filename).result

/-- Lines 225-239 of `handleAdd`: the file type chosen from the scanned name, with
the flag of the "Unknown file type" warning; `none` is the `.REL` branch, which
returns. -/
def addFileType (name : Str) : Option (FileTypes × Bool) :=
  if ends_with name (str ".PRG") then some (FileTypes.PRG, false)
  else if ends_with name (str ".SEQ") then some (FileTypes.SEQ, false)
  else if ends_with name (str ".USR") then some (FileTypes.USR, false)
  else if ends_with name (str ".REL") then none
  else some (FileTypes.PRG, true)

variable {D W : Type}

/-- Function `handleAdd` (lines 186-255). -/
def handleAdd (E : Engine D W) (diskfile filename : Str) (s : St W) : St W × List Event :=
  let s := { s with diskname := diskfile }
  let l := E.load E.init s.world s.diskname
  if l.2 then
    match E.ifstream s.world filename with
    | none => (s, [.load .disk diskfile true, .cerr (.unableToOpen filename)])
    | some fileData =>
      let sc := scanName filename
      match addFileType sc.name with
      | none => (s, [.load .disk diskfile true, .cerr .useAddRel])
      | some (filetype, unknown) =>
        let warn := if unknown then [Event.cerr .unknownFileType] else []
        let name := sc.result
        let a := E.addFile l.1 name filetype fileData
        if a.2 then
          let w := E.save a.1 s.world diskfile
          ({ s with world := w.1 },
            [.load .disk diskfile true] ++ warn ++
              [.addFile .disk name filetype fileData, .save .disk diskfile])
        else
          ({ s with diskname := [] },
            [.load .disk diskfile true] ++ warn ++
              [.addFile .disk name filetype fileData, .cerr .failedToAdd])
  else
    ({ s with diskname := [] }, [.load .disk diskfile false, .cerr .couldNotLoad])

/-- Function `handleAddRel` (lines 263-318). -/
def handleAddRel (E : Engine D W) (diskfile filename : Str) (recordsize : Int) (s : St W) :
    St W × List Event :=
  let s := { s with diskname := diskfile }
  let l := E.load E.init s.world s.diskname
  if l.2 then
    match E.ifstream s.world filename with
    | none => (s, [.load .disk diskfile true, .cerr (.unableToOpen filename)])
    | some fileData =>
      let sc := scanName filename
      let filetype := FileTypes.REL
      let name := sc.result
      let a := E.addRelFile l.1 name filetype recordsize fileData
      if a.2 then
        let w := E.save a.1 s.world diskfile
        ({ s with world := w.1 },
          [.load .disk diskfile true, .addRelFile .disk name filetype recordsize fileData,
            .save .disk diskfile])
      else
        ({ s with diskname := [] },
          [.load .disk diskfile true, .addRelFile .disk name filetype recordsize fileData,
            .cerr .failedToAdd])
  else
    ({ s with diskname := [] }, [.load .disk diskfile false, .cerr .couldNotLoad])

/-! ## `handleLock` and `handleUnlock` -/

/-- Function `handleLock` (lines 369-387). -/
def handleLock (E : Engine D W) (diskfile filename : Str) (s : St W) : St W × List Event :=
  let s := { s with diskname := diskfile }
  let l := E.load E.init s.world s.diskname
  if l.2 then
    let k := E.lockfile l.1 filename true
    if k.2 then
      let w := E.save k.1 s.world diskfile
      ({ s with world := w.1 },
        [.load .disk diskfile true, .lockfile .disk filename true, .save .disk diskfile])
    else
      (s, [.load .disk diskfile true, .lockfile .disk filename true, .cerr .couldNotLock])
  else
    ({ s with diskname := [] }, [.load .disk diskfile false, .cerr .couldNotLoad])

/-- Function `handleUnlock` (lines 394-412). -/
def handleUnlock (E : Engine D W) (diskfile filename : Str) (s : St W) : St W × List Event :=
  let s := { s with diskname := diskfile }
  let l := E.load E.init s.world s.diskname
  if l.2 then
    let k := E.lockfile l.1 filename true
    if k.2 then
      let w := E.save k.1 s.world diskfile
      ({ s with world := w.1 },
        [.load .disk diskfile true, .lockfile .disk filename true, .save .disk diskfile])
    else
      (s, [.load .disk diskfile true, .lockfile .disk filename true, .cerr .couldNotUnlock])
  else
    ({ s with diskname := [] }, [.load .disk diskfile false, .cerr .couldNotLoad])

/-! ## Backup: `copyFiles`, `Backup`, `handleBackup` -/

/-- The pointer expression `literal + n` of C++ for a string literal and an
integer `n`, read as a C string: the literal is an array of its characters and a
terminating NUL, so the result is the part of the literal from offset `n` on when
`n` is at most the length of the literal, and the expression has no defined
value (`none`) for every other offset.  `n` is a `char` code: a code above 127 is
a negative offset when `char` is signed and a large one when it is not, outside
the literal in both cases. -/
def cstrPlus (literal : Str) (n : Nat) : Option Str :=
  if n ≤ literal.length then some (literal.drop n) else none

/-- The result of the `do ... while (!valid)` loop of lines 683-714. -/
structure Confirmed where
  conformation : ComformationType
  cin : List Nat
  hung : Bool
  events : List Event
  deriving DecidableEq, Repr

/-- The `do ... while (!valid)` loop of lines 683-714.  Each round that asks
prints the prompt and extracts one character; when `std::cin` has no character
left the extraction fails, no later round can become valid, and the loop does
not end (`hung`). -/
def confirmLoop (filename : Str) (conformation : ComformationType) : List Nat → Confirmed
  | [] =>
    if conformation ≠ .skip_all ∧ conformation ≠ .overwrite_all then
      ⟨conformation, [], true, [.prompt filename]⟩
    else ⟨conformation, [], false, []⟩
  | response :: rest =>
    if conformation ≠ .skip_all ∧ conformation ≠ .overwrite_all then
      if toupper response = 89 then ⟨.overwrite_file, rest, false, [.prompt filename]⟩
      else if toupper response = 78 then ⟨.skip_file, rest, false, [.prompt filename]⟩
      else if toupper response = 65 then ⟨.overwrite_all, rest, false, [.prompt filename]⟩
      else if toupper response = 88 then ⟨.skip_all, rest, false, [.prompt filename]⟩
      else
        let c := confirmLoop filename conformation rest
        { c with events := .prompt filename :: c.events }
    else ⟨conformation, response :: rest, false, []⟩

/-- How one round of the `for` loop of `copyFiles` ends: with the next entry
(also after `continue`), with `return false`, or never. -/
inductive Flow
  | next
  | returnFalse
  | hung
  deriving DecidableEq, Repr

/-- State after a part of `copyFiles`. -/
structure Copied (D W : Type) where
  flow : Flow
  targetDisk : D
  st : St W
  events : List Event

/-- Function `fileExists` (lines 665-668). -/
def fileExists (E : Engine D W) (disk : D) (filename : Str) : Bool :=
  (E.findFile disk filename).isSome

/-- The test of line 725, `F` being `targetDisk.getFreeSectorCount()`:
`(F + 2) * 256 <= file_size[0] + file_size[1] * 256`.  The free count of an image
is at most 768 and the size bytes are below 256, so the `int` arithmetic does
not overflow. -/
def wontFit (F : Nat) (fileEntry : DirEntry) : Bool :=
  decide ((F + 2) * 256 ≤ fileEntry.file_size0 + fileEntry.file_size1 * 256)

/-- Lines 724-732 of `copyFiles`: the roll-over to a new target.
`backup_disk_num` is a `char`; `++` is taken modulo 256. -/
def rollOver (E : Engine D W) (fileEntry : DirEntry) (targetDisk : D) (s : St W) :
    D × St W × List Event :=
  if wontFit (E.getFreeSectorCount targetDisk) fileEntry then
    let s := { s with backup_disk_num := (s.backup_disk_num + 1) % 256 }
    let target_name := s.target_backup_base_name ++ [s.backup_disk_num] ++ str ".d64"
    let label := cstrPlus (str "BACKUP") s.backup_disk_num
    let t := E.formatDisk targetDisk label
    let w := E.save t s.world target_name
    (t, { s with world := w.1 }, [.formatDisk .targetDisk label, .save .targetDisk target_name])
  else (targetDisk, s, [])

/-- Lines 724-741 of `copyFiles`: roll-over test, then reading the file from the
source and adding it to the target. -/
def copyOne (E : Engine D W) (sourceDisk : D) (fileEntry : DirEntry) (filename : Str)
    (targetDisk : D) (s : St W) : Copied D W :=
  let r := rollOver E fileEntry targetDisk s
  match E.readFile sourceDisk filename with
  | some fileData =>
    let a := E.addFile r.1 filename fileEntry.file_type fileData
    ⟨.next, a.1, r.2.1, r.2.2 ++ [.addFile .targetDisk filename fileEntry.file_type fileData]⟩
  | none => ⟨.returnFalse, r.1, r.2.1, r.2.2 ++ [.cerr (.failedToCopy filename)]⟩

/-- The body of the `for` loop of `copyFiles` (lines 680-742) for one directory
entry of the source. -/
def copyEntry (E : Engine D W) (sourceDisk : D) (fileEntry : DirEntry) (targetDisk : D)
    (s : St W) : Copied D W :=
  let filename := E.Trim fileEntry.file_name
  if fileExists E targetDisk filename then
    let c := confirmLoop filename s.conformation s.cin
    let s := { s with conformation := c.conformation, cin := c.cin, hung := c.hung }
    if c.hung then ⟨.hung, targetDisk, s, c.events⟩
    else if s.conformation = .skip_all ∨ s.conformation = .skip_file then
      ⟨.next, targetDisk, s, c.events⟩
    else
      let t := E.removeFile targetDisk filename
      let r := copyOne E sourceDisk fileEntry filename t.1 s
      { r with events := c.events ++ [.removeFile .targetDisk filename] ++ r.events }
  else copyOne E sourceDisk fileEntry filename targetDisk s

/-- The `for` loop of `copyFiles` over the entries of `sourceDisk.directory()`. -/
def copyLoop (E : Engine D W) (sourceDisk : D) : List DirEntry → D → St W → Copied D W
  | [], targetDisk, s => ⟨.next, targetDisk, s, []⟩
  | fileEntry :: rest, targetDisk, s =>
    let c := copyEntry E sourceDisk fileEntry targetDisk s
    match c.flow with
    | .next =>
      let r := copyLoop E sourceDisk rest c.targetDisk c.st
      { r with events := c.events ++ r.events }
    | _ => c

/-- Function `copyFiles` (lines 677-745): flow `next` is `return true`. -/
def copyFiles (E : Engine D W) (sourceDisk targetDisk : D) (s : St W) : Copied D W :=
  copyLoop E sourceDisk (E.directory sourceDisk) targetDisk s

/-- Result of `loadDisks`. -/
structure Loaded (D : Type) where
  ok : Bool
  sourceDisk : D
  targetDisk : D
  events : List Event

/-- Function `loadDisks` (lines 647-657). -/
def loadDisks (E : Engine D W) (source target : Str) (s : St W) : Loaded D :=
  let a := E.load E.init s.world source
  let b := E.load E.init s.world target
  if !a.2 || !b.2 then
    ⟨false, a.1, b.1, [.load .sourceDisk source a.2, .load .targetDisk target b.2,
      .cerr .failedToLoadDisks]⟩
  else ⟨true, a.1, b.1, [.load .sourceDisk source a.2, .load .targetDisk target b.2]⟩

/-- Function `Backup` (lines 752-766). -/
def Backup (E : Engine D W) (source target : Str) (s : St W) : St W × List Event :=
  let l := loadDisks E source target s
  if !l.ok then (s, l.events)
  else
    let c := copyFiles E l.sourceDisk l.targetDisk s
    match c.flow with
    | .hung => (c.st, l.events ++ c.events)
    | .returnFalse => (c.st, l.events ++ c.events ++ [.cerr .backupFailed])
    | .next =>
      let w := E.save c.targetDisk c.st.world target
      ({ c.st with world := w.1 }, l.events ++ c.events ++ [.save .targetDisk target])

/-- The `for (auto& src : disks)` loop of `handleBackup` (lines 790-793). -/
def backupLoop (E : Engine D W) (target_name : Str) : List Str → St W → St W × List Event
  | [], s => (s, [])
  | src :: rest, s =>
    let b := Backup E src target_name s
    if b.1.hung then b
    else
      let r := backupLoop E target_name rest b.1
      (r.1, b.2 ++ r.2)

/-- Lines 777-780 of `handleBackup`: the value of `target_backup_base_name`. -/
def backupBase (diskfile : Str) : Str :=
  if ends_with diskfile (str ".d64") || ends_with diskfile (str ".D64") then
    substr2 diskfile 0 ((diskfile.length : Int) - 4)
  else diskfile

/-- Result of lines 775-788 of `handleBackup`, before the first source. -/
structure Prepared (D W : Type) where
  target : D
  target_name : Str
  st : St W
  events : List Event

/-- Lines 775-788 of `handleBackup`: the target image is loaded or formatted,
renamed and saved, and the counter and the policy are reset. -/
def backupPrepare (E : Engine D W) (diskfile : Str) (s : St W) : Prepared D W :=
  let s := { s with target_backup_base_name := backupBase diskfile }
  let target_name := s.target_backup_base_name ++ str ".d64"
  let l := E.load E.init s.world target_name
  let f := if !l.2 then E.formatDisk l.1 (some (str "NEW DISK")) else l.1
  let fe := if !l.2 then [Event.formatDisk .target (some (str "NEW DISK"))] else []
  let r := E.rename_disk f (str "BACKUP")
  let w := E.save r.1 s.world target_name
  let s := { s with world := w.1, backup_disk_num := 48, conformation := .skip_file }
  ⟨r.1, target_name, s,
    [.load .target target_name l.2] ++ fe ++
      [.rename_disk .target (str "BACKUP"), .save .target target_name]⟩

/-- Function `handleBackup` (lines 773-795). -/
def handleBackup (E : Engine D W) (diskfile : Str) (disks : List Str) (s : St W) :
    St W × List Event :=
  let p := backupPrepare E diskfile s
  let r := backupLoop E p.target_name disks p.st
  (r.1, p.events ++ r.2)

/-! ## The words of the specification -/

/-- Upper-casing of a whole string. -/
def upper (s : Str) : Str := s.map toupper

/-- The basename of a host path: what follows the last `/`. -/
def basename (path : Str) : Str := (path.reverse.takeWhile (fun c => c != 47)).reverse

/-- Left half of a split on the last `.`; the whole string when it has no `.`. -/
def beforeLastDot (s : Str) : Str :=
  if 46 ∈ s then ((s.reverse.dropWhile (fun c => c != 46)).drop 1).reverse else s

/-- The file name the specification prescribes (section 9): "from the
host-supplied path, take the basename, uppercase it, split on the last '.', take
the left half". -/
def specName (path : Str) : Str := beforeLastDot (upper (basename path))

/-- The file type the specification assigns to a host file name: by its
extension, case-insensitively, `.SEQ` and `.USR` being the only endings that do
not give PRG. -/
def specType (filename : Str) : FileTypes :=
  if ends_with (upper filename) (str ".SEQ") then FileTypes.SEQ
  else if ends_with (upper filename) (str ".USR") then FileTypes.USR
  else FileTypes.PRG

/-- The target base name in the words of the specification: the given path with
one trailing `.d64` or `.D64` removed. -/
def specBase (path : Str) : Str :=
  if (path.drop (path.length - 4) == str ".d64" || path.drop (path.length - 4) == str ".D64")
  then path.take (path.length - 4) else path

/-! ## The new target images of a backup run -/

/-- The names of the new targets of a run whose counter stands at `c`: the next
`r` roll-overs, each named by the base name, the next character code and
`.d64`. -/
def rollNames (base : Str) : Nat → Nat → List Str
  | _, 0 => []
  | c, r + 1 => (base ++ [(c + 1) % 256] ++ str ".d64") :: rollNames base ((c + 1) % 256) r

/-- The name of a new target image written by the event: a `save` call on
`targetDisk` under a name other than `target`. -/
def newTarget (target : Str) : Event → Option Str
  | .save .targetDisk name => if name = target then none else some name
  | _ => none

/-- The image files that `Backup` writes besides `target`, in order. -/
def newTargets (target : Str) (events : List Event) : List Str :=
  events.filterMap (newTarget target)

/-! ## A small engine for running the handlers on concrete inputs -/

/-- One file of a `Disk`: name, type byte, the size field of its directory
entry, lock flag, contents (`none` for a file whose sector chain cannot be
read). -/
structure DiskFile where
  name : Str
  type : Nat
  size : Nat
  locked : Bool
  data : Option (List Nat)
  deriving DecidableEq, Repr

/-- Modelled from the spec: an image as the engine of `d64.h` (not part of
`main.cpp`) sees it: the disk name, the live directory entries in order, and the
free-sector count of the BAM. -/
structure Disk where
  label : Str
  files : List DiskFile
  free : Nat
  deriving DecidableEq, Repr

/-- Host file system: image files and plain files by name. -/
structure Host where
  images : List (Str × Disk)
  plain : List (Str × List Nat)
  deriving DecidableEq, Repr

/-- Sectors a payload occupies: 254 bytes per sector, one sector for the empty
payload (spec sections 4.6 and 8). -/
def sectorsFor (data : List Nat) : Nat := if data = [] then 1 else (data.length + 253) / 254

/-- Name padded to 16 bytes with 0xA0. -/
def pad16 (name : Str) : Str := name ++ List.replicate (16 - name.length) 160

/-- Directory entry of a file. -/
def DiskFile.entry (f : DiskFile) : DirEntry :=
  ⟨pad16 f.name, f.type, f.size % 256, f.size / 256 % 256⟩

/-- A freshly formatted 35-track image: 664 free sectors (spec section 8). -/
def Disk.blank (label : Str) : Disk := ⟨label, [], 664⟩

/-- Modelled from the spec: the engine of `d64.h` on `Disk` and `Host`, with the
sector accounting of spec section 4.6 (an added file needs its sectors plus a
reserve of two; a removed file gives back the sectors of its size field). -/
def diskEngine : Engine Disk Host where
  init := Disk.blank []
  load := fun d w name =>
    match w.images.lookup name with
    | some img => (img, true)
    | none => (d, false)
  save := fun d w name =>
    ({ w with images := (name, d) :: w.images.filter (fun p => p.1 != name) }, true)
  formatDisk := fun _ name => Disk.blank (name.getD [])
  rename_disk := fun d name => ({ d with label := name }, true)
  addFile := fun d name type data =>
    if d.files.any (fun f => f.name == name) || decide (d.free < sectorsFor data + 2) then (d, false)
    else ({ d with files := d.files ++ [⟨name, type, sectorsFor data, false, some data⟩],
                   free := d.free - sectorsFor data }, true)
  addRelFile := fun d name type recordsize data =>
    if decide (recordsize < 2) || decide (254 < recordsize) ||
        d.files.any (fun f => f.name == name) || decide (d.free < sectorsFor data + 2) then
      (d, false)
    else ({ d with files := d.files ++ [⟨name, type, sectorsFor data, false, some data⟩],
                   free := d.free - sectorsFor data }, true)
  lockfile := fun d name flag =>
    if d.files.any (fun f => f.name == name) then
      ({ d with files := d.files.map (fun f => if f.name == name then { f with locked := flag } else f) },
        true)
    else (d, false)
  removeFile := fun d name =>
    match d.files.find? (fun f => f.name == name) with
    | some f => ({ d with files := d.files.filter (fun g => g.name != name), free := d.free + f.size },
        true)
    | none => (d, false)
  findFile := fun d name => (d.files.find? (fun f => f.name == name)).map DiskFile.entry
  readFile := fun d name => (d.files.find? (fun f => f.name == name)).bind DiskFile.data
  directory := fun d => d.files.map DiskFile.entry
  getFreeSectorCount := fun d => d.free
  Trim := fun name => (name.reverse.dropWhile (fun c => c == 160)).reverse
  ifstream := fun w name => w.plain.lookup name
  ofType := fun forty => ⟨[], [], if forty then 749 else 664⟩
  extractFile := fun d w name =>
    match (d.files.find? (fun f => f.name == name)).bind DiskFile.data with
    | some data => ({ w with plain := (name, data) :: w.plain.filter (fun p => p.1 != name) }, true)
    | none => (w, false)
  renameFile := fun d oldname newname =>
    if d.files.any (fun f => f.name == oldname) && !d.files.any (fun f => f.name == newname) then
      ({ d with files :=
          d.files.map (fun f => if f.name == oldname then { f with name := newname } else f) },
        true)
    else (d, false)
  verifyBAMIntegrity := fun d fix _ =>
    if d.free + (d.files.map DiskFile.size).sum = 664 then (d, true)
    else if fix then ({ d with free := 664 - (d.files.map DiskFile.size).sum }, true)
    else (d, false)
  compactDirectory := fun d => (d, true)
  reorderDirectory := fun d order =>
    ({ d with files :=
        order.filterMap (fun n => d.files.find? (fun f => f.name == n)) ++
          d.files.filter (fun f => !order.contains f.name) }, true)
  readSector := fun _ track sector =>
    if 1 ≤ track ∧ track ≤ 35 ∧ 0 ≤ sector ∧
        sector < (if track ≤ 17 then 21 else if track ≤ 24 then 19 else if track ≤ 30 then 18
          else 17) then
      some (List.replicate 256 0)
    else none

/-- Initial program state: the initial values of the globals (lines 19-23) over a
host file system and a console input. -/
def St.initial (w : W) (cin : List Nat) : St W :=
  ⟨.overwrite_file, [], 48, [], w, cin, false⟩

/-- A host with one blank image `d.d64` and the plain files named. -/
def hostWith (names : List Str) : Host :=
  ⟨[(str "d.d64", Disk.blank (str "TEST"))], names.map (fun n => (n, [1, 8]))⟩

/-- Engine calls, as opposed to console lines. -/
def Event.isCall : Event → Bool
  | .prompt _ => false
  | .cerr _ => false
  | _ => true

/-- A host whose image `d.d64` holds the locked file `GAME`. -/
def hostLocked : Host :=
  ⟨[(str "d.d64", ⟨str "TEST", [⟨str "GAME", 130, 1, true, some [1, 8]⟩], 663⟩)], []⟩

/-- A host for a backup onto a full target: `T.d64` has no free sector, the
source `S.d64` holds the one-sector file `A`. -/
def hostFull : Host :=
  ⟨[(str "T.d64", ⟨str "BACKUP", [⟨str "BIG", 130, 664, false, some [0]⟩], 0⟩),
    (str "S.d64", ⟨str "GAMES", [⟨str "A", 130, 1, false, some [1, 8]⟩], 663⟩)], []⟩

/-- A host for a backup that rolls over: the target `T.d64` holds `OLD` and has
103 free sectors; the source `S.d64` holds the one-sector file `A` and the file
`B`, whose directory entry carries the size bytes 255, 255. -/
def hostRoll : Host :=
  ⟨[(str "T.d64", ⟨str "BACKUP", [⟨str "OLD", 130, 561, false, some [7]⟩], 103⟩),
    (str "S.d64", ⟨str "GAMES",
      [⟨str "A", 130, 1, false, some [1, 8]⟩, ⟨str "B", 130, 65535, false, some [2, 9]⟩], 600⟩)], []⟩

/-- Relation between the state before and after a part of a backup run that
issued the events `ev`: the base name is kept, the counter stays a `char`, and
for some number `r` of roll-overs the new targets written are the next `r` names
and the counter has advanced by `r`. -/
def Rolls (s s' : St W) (ev : List Event) : Prop :=
  s'.target_backup_base_name = s.target_backup_base_name ∧
  (s.backup_disk_num < 256 → s'.backup_disk_num < 256) ∧
  ∃ r, newTargets (s.target_backup_base_name ++ str ".d64") ev =
      rollNames s.target_backup_base_name s.backup_disk_num r ∧
    s'.backup_disk_num % 256 = (s.backup_disk_num + r) % 256

/-- The engine of `diskEngine` with the one change that `getFreeSectorCount`
answers 0 for every image: a target that is reported full at every test. -/
def fullEngine : Engine Disk Host :=
  { diskEngine with getFreeSectorCount := fun _ => 0 }

/-- A host for a backup of ten files: the target `T.d64` is blank, the source
`S.d64` holds the files `F0` to `F9`, each with a size field of 512 sectors. -/
def hostTen : Host :=
  ⟨[(str "T.d64", Disk.blank (str "BACKUP")),
    (str "S.d64", ⟨str "GAMES",
      (List.range 10).map (fun k => ⟨[70, 48 + k], 130, 512, false, some [k]⟩), 0⟩)], []⟩

/-- A host for a backup from a damaged source: the target `T.d64` is blank, the
source `S.d64` lists the file `A`, whose sector chain cannot be read. -/
def hostDamaged : Host :=
  ⟨[(str "T.d64", Disk.blank (str "BACKUP")),
    (str "S.d64", ⟨str "GAMES", [⟨str "A", 130, 1, false, none⟩], 663⟩)], []⟩

/-- A source image holding the one-sector file `A`. -/
def diskA : Disk := ⟨str "GAMES", [⟨str "A", 130, 1, false, some [1, 8]⟩], 663⟩

/-- A target image that already holds a file `A`. -/
def diskOldA : Disk := ⟨str "BACKUP", [⟨str "A", 130, 1, false, some [5]⟩], 663⟩

/-- The directory entry of `A` on `diskA`. -/
def entryA : DirEntry := ⟨pad16 (str "A"), 130, 1, 0⟩

/-! ## The other single-disk handlers -/

/-- Function `handleLoad` (lines 121-132). -/
def handleLoad (E : Engine D W) (diskfile : Str) (s : St W) : St W × List Event :=
  let s := { s with diskname := diskfile }
  let l := E.load E.init s.world s.diskname
  if l.2 then (s, [.load .disk diskfile true])
  else ({ s with diskname := [] }, [.load .disk diskfile false, .cerr .failedToLoad])

/-- Function `handleCreate` (lines 138-152). -/
def handleCreate (E : Engine D W) (diskfile : Str) (forty_tracks : Bool) (s : St W) :
    St W × List Event :=
  let s := { s with diskname := diskfile }
  let disk := E.formatDisk (E.ofType forty_tracks) (some (str "NEW DISK"))
  let w := E.save disk s.world s.diskname
  if w.2 then
    ({ s with world := w.1 }, [.formatDisk .disk (some (str "NEW DISK")), .save .disk diskfile])
  else
    ({ s with world := w.1, diskname := [] },
      [.formatDisk .disk (some (str "NEW DISK")), .save .disk diskfile, .cerr .failedToCreate])

/-- Function `handleBAM` (lines 158-179); the map itself goes to `std::cout`. -/
def handleBAM (E : Engine D W) (diskfile : Str) (s : St W) : St W × List Event :=
  let s := { s with diskname := diskfile }
  let l := E.load E.init s.world s.diskname
  if l.2 then (s, [.load .disk diskfile true])
  else ({ s with diskname := [] }, [.load .disk diskfile false, .cerr .couldNotLoad])

/-- Function `handleList` (lines 324-362); the listing itself goes to
`std::cout`. -/
def handleList (E : Engine D W) (diskfile : Str) (s : St W) : St W × List Event :=
  let s := { s with diskname := diskfile }
  let l := E.load E.init s.world s.diskname
  if l.2 then (s, [.load .disk diskfile true])
  else ({ s with diskname := [] }, [.load .disk diskfile false, .cerr .couldNotLoad])

/-- Function `handleDumpSector` (lines 420-451); the dump itself goes to
`std::cout`. -/
def handleDumpSector (E : Engine D W) (diskfile : Str) (track sector : Int) (s : St W) :
    St W × List Event :=
  let s := { s with diskname := diskfile }
  let l := E.load E.init s.world s.diskname
  if l.2 then
    match E.readSector l.1 track sector with
    | some _ => (s, [.load .disk diskfile true])
    | none => (s, [.load .disk diskfile true, .cerr (.couldNotReadSector track sector)])
  else ({ s with diskname := [] }, [.load .disk diskfile false, .cerr .couldNotLoad])

/-- Function `handleExtract` (lines 458-475). -/
def handleExtract (E : Engine D W) (diskfile filename : Str) (s : St W) : St W × List Event :=
  let s := { s with diskname := diskfile }
  let l := E.load E.init s.world s.diskname
  if l.2 then
    let x := E.extractFile l.1 s.world filename
    if x.2 then
      ({ s with world := x.1 }, [.load .disk diskfile true, .extractFile .disk filename])
    else
      ({ s with world := x.1 },
        [.load .disk diskfile true, .extractFile .disk filename, .cerr .couldNotExtract])
  else ({ s with diskname := [] }, [.load .disk diskfile false, .cerr .couldNotLoad])

/-- Function `handleRemove` (lines 482-500). -/
def handleRemove (E : Engine D W) (diskfile filename : Str) (s : St W) : St W × List Event :=
  let s := { s with diskname := diskfile }
  let l := E.load E.init s.world s.diskname
  if l.2 then
    let k := E.removeFile l.1 filename
    if k.2 then
      let w := E.save k.1 s.world diskfile
      ({ s with world := w.1 },
        [.load .disk diskfile true, .removeFile .disk filename, .save .disk diskfile])
    else
      (s, [.load .disk diskfile true, .removeFile .disk filename, .cerr .couldNotRemove])
  else ({ s with diskname := [] }, [.load .disk diskfile false, .cerr .couldNotLoad])

/-- Function `handleRename` (lines 508-526). -/
def handleRename (E : Engine D W) (diskfile oldname newname : Str) (s : St W) :
    St W × List Event :=
  let s := { s with diskname := diskfile }
  let l := E.load E.init s.world s.diskname
  if l.2 then
    let k := E.renameFile l.1 oldname newname
    if k.2 then
      let w := E.save k.1 s.world diskfile
      ({ s with world := w.1 },
        [.load .disk diskfile true, .renameFile .disk oldname newname, .save .disk diskfile])
    else
      (s, [.load .disk diskfile true, .renameFile .disk oldname newname, .cerr .couldNotRename])
  else ({ s with diskname := [] }, [.load .disk diskfile false, .cerr .couldNotLoad])

/-- Function `handleVerify` (lines 533-552). -/
def handleVerify (E : Engine D W) (diskfile : Str) (fix : Bool) (s : St W) : St W × List Event :=
  let s := { s with diskname := diskfile }
  let l := E.load E.init s.world s.diskname
  if l.2 then
    let v := E.verifyBAMIntegrity l.1 fix []
    let report := if v.2 then [] else [Event.cerr .errorsInBAM]
    if fix then
      let w := E.save v.1 s.world diskfile
      ({ s with world := w.1 },
        [.load .disk diskfile true, .verifyBAMIntegrity .disk fix] ++ report ++
          [.save .disk diskfile])
    else (s, [.load .disk diskfile true, .verifyBAMIntegrity .disk fix] ++ report)
  else ({ s with diskname := [] }, [.load .disk diskfile false, .cerr .couldNotLoad])

/-- Function `handleCompact` (lines 558-576). -/
def handleCompact (E : Engine D W) (diskfile : Str) (s : St W) : St W × List Event :=
  let s := { s with diskname := diskfile }
  let l := E.load E.init s.world s.diskname
  if l.2 then
    let k := E.compactDirectory l.1
    if k.2 then
      let w := E.save k.1 s.world diskfile
      ({ s with world := w.1 },
        [.load .disk diskfile true, .compactDirectory .disk, .save .disk diskfile])
    else (s, [.load .disk diskfile true, .compactDirectory .disk, .cerr .compactionFailed])
  else ({ s with diskname := [] }, [.load .disk diskfile false, .cerr .couldNotLoad])

/-- Function `handleDiskRename` (lines 618-636). -/
def handleDiskRename (E : Engine D W) (diskfile newname : Str) (s : St W) : St W × List Event :=
  let s := { s with diskname := diskfile }
  let l := E.load E.init s.world s.diskname
  if l.2 then
    let k := E.rename_disk l.1 newname
    if k.2 then
      let w := E.save k.1 s.world diskfile
      ({ s with world := w.1 },
        [.load .disk diskfile true, .rename_disk .disk newname, .save .disk diskfile])
    else (s, [.load .disk diskfile true, .rename_disk .disk newname, .cerr .couldNotRenameDisk])
  else ({ s with diskname := [] }, [.load .disk diskfile false, .cerr .couldNotLoad])

/-! ## `handleReorder` and the global `program` -/

/-- What `handleReorder` asks of the global `argparse::ArgumentParser program`
(`argparse.hpp` is not part of `main.cpp`): `program.is_used(name)` and
`program.get<std::string>(name)`; `none` is a call that throws.  No handler
changes the parser. -/
structure Program where
  is_used : Str → Option Bool
  get : Str → Option Str

/-- How a call stands: it has returned, it has left by an exception, or it is
still running. -/
inductive Status
  | returned
  | thrown
  | running
  deriving DecidableEq, Repr

/-- A handler call observed up to some call depth. -/
structure Ran (W : Type) where
  st : St W
  events : List Event
  status : Status

/-- The lines that the `std::getline` loop of lines 589-591 reads from a file
with the given contents; a file that does not open gives none. -/
def getlines (contents : Option (List Nat)) : List Str :=
  (contents.getD []).foldr
    (fun c acc =>
      if c = 10 then [] :: acc
      else
        match acc with
        | [] => [[c]]
        | line :: rest => (c :: line) :: rest)
    []

/-- Lines 595-610 of `handleReorder`: the part after the `--orderfile` test. -/
def reorderDisk (E : Engine D W) (diskfile : Str) (order : List Str) (s : St W) :
    St W × List Event :=
  let s := { s with diskname := diskfile }
  let l := E.load E.init s.world s.diskname
  if l.2 then
    let k := E.reorderDirectory l.1 order
    if k.2 then
      let w := E.save k.1 s.world diskfile
      ({ s with world := w.1 },
        [.load .disk diskfile true, .reorderDirectory .disk order, .save .disk diskfile])
    else (s, [.load .disk diskfile true, .reorderDirectory .disk order, .cerr .couldNotReorder])
  else ({ s with diskname := [] }, [.load .disk diskfile false, .cerr .couldNotLoad])

/-- Function `handleReorder` (lines 583-611), observed up to the call depth given
by the first argument: at depth 0 the call has been entered and is running. -/
def handleReorder (E : Engine D W) (P : Program) : Nat → Str → List Str → St W → Ran W
  | 0, _, _, s => ⟨s, [], .running⟩
  | depth + 1, diskfile, order, s =>
    match P.is_used (str "--orderfile") with
    | none => ⟨s, [], .thrown⟩
    | some false =>
      let b := reorderDisk E diskfile order s
      ⟨b.1, b.2, .returned⟩
    | some true =>
      match P.get (str "--orderfile") with
      | none => ⟨s, [], .thrown⟩
      | some orderfile =>
        let fileOrder := getlines (E.ifstream s.world orderfile)
        match P.get (str "diskfile") with
        | none => ⟨s, [], .thrown⟩
        | some inner =>
          let r := handleReorder E P depth inner fileOrder s
          match r.status with
          | .returned =>
            let b := reorderDisk E diskfile order r.st
            ⟨b.1, r.events ++ b.2, .returned⟩
          | _ => r

/-- The `save` calls among the events: object and file name, in order. -/
def saves (events : List Event) : List (Obj × Str) :=
  events.filterMap (fun e =>
    match e with
    | .save o name => some (o, name)
    | _ => none)

/-- The overwrite prompts among the events: the file names asked about. -/
def asks (events : List Event) : List Str :=
  events.filterMap (fun e =>
    match e with
    | .prompt filename => some filename
    | _ => none)

/-- A parser state in which `--orderfile` is in use. -/
def programWithOrderfile : Program :=
  ⟨fun name => some (name == str "--orderfile"),
    fun name => if name == str "--orderfile" then some (str "order.txt") else some (str "d.d64")⟩

/-- A host for a backup of two sources onto a target that already holds `A`. -/
def hostTwice : Host :=
  ⟨[(str "T.d64", diskOldA), (str "S.d64", diskA), (str "S2.d64", diskA)], []⟩

/-! ## `executeCommand` and the command table -/

/-- C `isspace` in the "C" locale. -/
def isspace (c : Nat) : Bool := c == 32 || (9 ≤ c && c ≤ 13)

/-- C `isdigit`. -/
def isdigit (c : Nat) : Bool := 48 ≤ c && c ≤ 57

/-- Function `std::stoi(s)`: leading white space is skipped, an optional sign and
the longest run of decimal digits are read, what follows is ignored.  `none`
is a call that throws: `std::invalid_argument` when there is no digit,
`std::out_of_range` when the value is no `int`. -/
def stoi (s : Str) : Option Int :=
  let t := s.dropWhile isspace
  let negative := t.head? == some 45
  let u := if t.head? == some 45 || t.head? == some 43 then t.drop 1 else t
  let digits := u.takeWhile isdigit
  if digits = [] then none
  else
    let n : Nat := digits.foldl (fun a d => a * 10 + (d - 48)) 0
    let v : Int := if negative then -(n : Int) else (n : Int)
    if v < -2147483648 ∨ 2147483647 < v then none else some v

/-- The `enum funcType` (lines 50-58). -/
inductive funcType
  | no_param
  | one_param
  | two_param
  | three_param
  | two_bool
  | file_list
  | two_int
  deriving DecidableEq, Repr

/-- The handler functions whose addresses the command table holds. -/
inductive Handler
  | handleHelp
  | handleCreate
  | handleList
  | handleLoad
  | handleAdd
  | handleExtract
  | handleRemove
  | handleRename
  | handleDiskRename
  | handleBAM
  | handleVerify
  | handleCompact
  | handleReorder
  | handleBackup
  | handleLock
  | handleUnlock
  | handleDumpSector
  deriving DecidableEq, Repr

/-- The `struct InteractiveFunctions` (lines 68-79): the type tag and the function
pointer of the union. -/
structure InteractiveFunctions where
  type : funcType
  f : Handler
  deriving DecidableEq, Repr

/-- The initialiser of `functionTable` (lines 81-105), in source order.  A
`std::map` keeps the first of two entries with one key, which is what
`List.lookup` finds. -/
def functionTable : List (Str × InteractiveFunctions) :=
  [(str "help", ⟨.no_param, .handleHelp⟩),
   (str "--help", ⟨.no_param, .handleHelp⟩),
   (str "--h", ⟨.no_param, .handleHelp⟩),
   (str "create", ⟨.two_bool, .handleCreate⟩),
   (str "format", ⟨.two_bool, .handleCreate⟩),
   (str "list", ⟨.one_param, .handleList⟩),
   (str "dir", ⟨.one_param, .handleList⟩),
   (str "load", ⟨.one_param, .handleLoad⟩),
   (str "add", ⟨.two_param, .handleAdd⟩),
   (str "extract", ⟨.two_param, .handleExtract⟩),
   (str "remove", ⟨.two_param, .handleRemove⟩),
   (str "del", ⟨.two_param, .handleRemove⟩),
   (str "rename", ⟨.three_param, .handleRename⟩),
   (str "rename-disk", ⟨.two_param, .handleDiskRename⟩),
   (str "bam", ⟨.one_param, .handleBAM⟩),
   (str "verify", ⟨.two_bool, .handleVerify⟩),
   (str "compact", ⟨.one_param, .handleCompact⟩),
   (str "reorder", ⟨.file_list, .handleReorder⟩),
   (str "backup", ⟨.file_list, .handleBackup⟩),
   (str "lock", ⟨.two_param, .handleLock⟩),
   (str "unlock", ⟨.two_param, .handleUnlock⟩),
   (str "dump", ⟨.two_int, .handleDumpSector⟩),
   (str "load", ⟨.one_param, .handleLoad⟩)]

/-- A call through one member of the union: the function and its arguments. -/
inductive Call
  | f0 (f : Handler)
  | f1 (f : Handler) (param1 : Str)
  | f2 (f : Handler) (param1 param2 : Str)
  | f3 (f : Handler) (param1 param2 param3 : Str)
  | fb (f : Handler) (param1 : Str) (flag : Bool)
  | fn (f : Handler) (diskfile : Str) (order : List Str)
  | fi (f : Handler) (diskfile : Str) (track sector : Int)
  deriving DecidableEq, Repr

/-- What `executeCommand` does after the look-up: it calls a handler, reports an
unknown command, reports missing parameters, leaves by the exception of
`std::stoi`, or reads `params` outside its range. -/
inductive Outcome
  | call (c : Call)
  | unknown
  | missing
  | thrown
  | outOfRange
  deriving DecidableEq, Repr

/-- The read `params[i]`, followed by `k`. -/
def withParam (params : List Str) (i : Nat) (k : Str → Outcome) : Outcome :=
  match params[i]? with
  | some p => k p
  | none => .outOfRange

/-- Lines 807-810 of `executeCommand`: the current disk name is put in front
unless the first parameter ends with `.d64` (`&&` reads `params[0]` only when
there is one). -/
def normalize (diskname : Str) (params : List Str) : List Str :=
  if !(decide (params.length > 0) && ends_with (params.getD 0 []) (str ".d64")) then
    diskname :: params
  else params

/-- Lines 812-863 of `executeCommand`, on the parameters after line 810. -/
def dispatch (command : Str) (params : List Str) : Outcome :=
  match functionTable.lookup command with
  | none => .unknown
  | some entry =>
    match entry.type with
    | .no_param => .call (.f0 entry.f)
    | .one_param =>
      if params.length < 1 then .missing
      else withParam params 0 fun p0 => .call (.f1 entry.f p0)
    | .two_param =>
      if params.length < 2 then .missing
      else withParam params 0 fun p0 => withParam params 1 fun p1 => .call (.f2 entry.f p0 p1)
    | .three_param =>
      if params.length < 3 then .missing
      else withParam params 0 fun p0 => withParam params 1 fun p1 => withParam params 2 fun p2 =>
        .call (.f3 entry.f p0 p1 p2)
    | .two_bool =>
      if params.length > 1 then
        withParam params 1 fun p1 => withParam params 0 fun p0 =>
          .call (.fb entry.f p0 (p1 == str "true"))
      else withParam params 0 fun p0 => .call (.fb entry.f p0 false)
    | .file_list =>
      if params.length < 1 then .missing
      else withParam params 0 fun p0 => .call (.fn entry.f p0 (params.drop 1))
    | .two_int =>
      if params.length < 3 then .missing
      else
        withParam params 1 fun p1 =>
          match stoi p1 with
          | none => .thrown
          | some track =>
            withParam params 2 fun p2 =>
              match stoi p2 with
              | none => .thrown
              | some sector => withParam params 0 fun p0 => .call (.fi entry.f p0 track sector)

/-- A handler call that returns, or hangs in the confirmation loop. -/
def Ran.of (r : St W × List Event) : Ran W :=
  ⟨r.1, r.2, if r.1.hung then .running else .returned⟩

/-- The call through the function pointer: the handler of `main.cpp` at that
address, run on its arguments.  The table pairs every pointer with the tag of
its own type; the last case stands for the other pairs. -/
def Call.run (E : Engine D W) (P : Program) (depth : Nat) : Call → St W → Ran W
  | .f0 .handleHelp, s => ⟨s, [], .returned⟩
  | .fb .handleCreate diskfile flag, s => Ran.of (handleCreate E diskfile flag s)
  | .fb .handleVerify diskfile flag, s => Ran.of (handleVerify E diskfile flag s)
  | .f1 .handleList diskfile, s => Ran.of (handleList E diskfile s)
  | .f1 .handleLoad diskfile, s => Ran.of (handleLoad E diskfile s)
  | .f1 .handleBAM diskfile, s => Ran.of (handleBAM E diskfile s)
  | .f1 .handleCompact diskfile, s => Ran.of (handleCompact E diskfile s)
  | .f2 .handleAdd diskfile filename, s => Ran.of (handleAdd E diskfile filename s)
  | .f2 .handleExtract diskfile filename, s => Ran.of (handleExtract E diskfile filename s)
  | .f2 .handleRemove diskfile filename, s => Ran.of (handleRemove E diskfile filename s)
  | .f2 .handleDiskRename diskfile newname, s => Ran.of (handleDiskRename E diskfile newname s)
  | .f2 .handleLock diskfile filename, s => Ran.of (handleLock E diskfile filename s)
  | .f2 .handleUnlock diskfile filename, s => Ran.of (handleUnlock E diskfile filename s)
  | .f3 .handleRename diskfile oldname newname, s =>
    Ran.of (handleRename E diskfile oldname newname s)
  | .fn .handleReorder diskfile order, s => handleReorder E P depth diskfile order s
  | .fn .handleBackup diskfile disks, s => Ran.of (handleBackup E diskfile disks s)
  | .fi .handleDumpSector diskfile track sector, s =>
    Ran.of (handleDumpSector E diskfile track sector s)
  | _, s => ⟨s, [], .returned⟩

/-- Function `executeCommand` (lines 802-868); `diskname` is the global. -/
def executeCommand (E : Engine D W) (P : Program) (depth : Nat) (command : Str)
    (params : List Str) (s : St W) : Ran W :=
  match dispatch command (normalize s.diskname params) with
  | .call c => c.run E P depth s
  | .unknown => ⟨s, [.cerr (.unknownCommand command)], .returned⟩
  | .missing => ⟨s, [.cerr (.missingParameters command)], .returned⟩
  | .thrown => ⟨s, [], .thrown⟩
  | .outOfRange => ⟨s, [], .thrown⟩

/-- The function a call goes to. -/
def Call.handler : Call → Handler
  | .f0 f => f
  | .f1 f _ => f
  | .f2 f _ _ => f
  | .f3 f _ _ _ => f
  | .fb f _ _ => f
  | .fn f _ _ => f
  | .fi f _ _ _ => f

/-- The disk argument of a call: its first argument, if it has one. -/
def Call.disk : Call → Option Str
  | .f0 _ => none
  | .f1 _ d => some d
  | .f2 _ d _ => some d
  | .f3 _ d _ _ => some d
  | .fb _ d _ => some d
  | .fn _ d _ => some d
  | .fi _ d _ _ => some d

/-- The string arguments of a call, in order. -/
def Call.strings : Call → List Str
  | .f0 _ => []
  | .f1 _ a => [a]
  | .f2 _ a b => [a, b]
  | .f3 _ a b c => [a, b, c]
  | .fb _ a _ => [a]
  | .fn _ a order => a :: order
  | .fi _ a _ _ => [a]

/-- The number of parameters a command type needs, as the claim on
`executeCommand` counts it. -/
def arity : funcType → Nat
  | .no_param => 0
  | .one_param => 1
  | .two_bool => 1
  | .file_list => 1
  | .two_param => 2
  | .three_param => 3
  | .two_int => 3

/-- C `islower` in the "C" locale. -/
def islower (c : Nat) : Bool := 97 ≤ c && c ≤ 122

/-- A file name that is a `.` followed only by characters that are not
punctuation. -/
def dotForm : Str → Bool
  | 46 :: rest => rest.all (fun c => !ispunct c)
  | _ => false

/-- The program state after the confirmation loop of lines 683-714. -/
def St.confirmed (s : St W) (c : Confirmed) : St W :=
  { s with conformation := c.conformation, cin := c.cin, hung := c.hung }

/-- A source image that lists `A`, whose sector chain cannot be read. -/
def diskDamaged : Disk := ⟨str "GAMES", [⟨str "A", 130, 1, false, none⟩], 663⟩

/-! ## Lemmas on the name scan -/

theorem toupper_idem (c : Nat) : toupper (toupper c) = toupper c := by
  unfold toupper; split_ifs <;> omega

theorem toupper_zero : toupper 0 = 0 := by decide

theorem ispunct_toupper (c : Nat) : ispunct (toupper c) = true → toupper c = c := by
  unfold toupper ispunct; split_ifs <;> simp; omega

theorem scanLoop_length (i : Nat) : ∀ (name : Str) (e : Nat),
    (scanLoop i name e).name.length = name.length := by
  induction i with
  | zero => intro name e; simp [scanLoop]
  | succ i ih =>
    intro name e
    simp only [scanLoop]
    split_ifs <;> simp [ih]

theorem scanLoop_getD_ge (i : Nat) : ∀ (name : Str) (e j : Nat), i ≤ j →
    (scanLoop i name e).name.getD j 0 = name.getD j 0 := by
  induction i with
  | zero => intro name e j _; simp [scanLoop]
  | succ i ih =>
    intro name e j hj
    have hne : i ≠ j := by omega
    have hset : (name.set i (toupper (name.getD i 0))).getD j 0 = name.getD j 0 := by
      simp [List.getD_eq_getElem?_getD, List.getElem?_set, hne]
    simp only [scanLoop]
    split_ifs
    · rw [ih _ _ _ (by omega), hset]
    · exact hset
    · rw [ih _ _ _ (by omega), hset]

theorem getD_set_toupper (name : Str) (i j : Nat) :
    toupper ((name.set i (toupper (name.getD i 0))).getD j 0) = toupper (name.getD j 0) := by
  simp only [List.getD_eq_getElem?_getD, List.getElem?_set]
  by_cases hij : i = j
  · subst hij
    by_cases hl : i < name.length
    · simp [hl, toupper_idem]
    · simp [hl, List.getElem?_eq_none (Nat.le_of_not_lt hl)]
  · simp [hij]

theorem scanLoop_toupper (i : Nat) : ∀ (name : Str) (e j : Nat),
    toupper ((scanLoop i name e).name.getD j 0) = toupper (name.getD j 0) := by
  induction i with
  | zero => intro name e j; simp [scanLoop]
  | succ i ih =>
    intro name e j
    simp only [scanLoop]
    split_ifs
    · rw [ih, getD_set_toupper]
    · exact getD_set_toupper name i j
    · rw [ih, getD_set_toupper]

theorem getD_set_self (name : Str) (i : Nat) (h : i < name.length) (v : Nat) :
    (name.set i v).getD i 0 = v := by
  simp [List.getD_eq_getElem?_getD, List.getElem?_set, h]

theorem getD_set_other (name : Str) (i j : Nat) (h : i ≠ j) (v : Nat) :
    (name.set i v).getD j 0 = name.getD j 0 := by
  simp [List.getD_eq_getElem?_getD, List.getElem?_set, h]

/-- The scan upper-cases every position from the first `.` it meets on, when no
punctuation stands behind that `.`. -/
theorem scanLoop_covers (i : Nat) : ∀ (name : Str) (k : Nat), k < i → i ≤ name.length →
    toupper (name.getD k 0) = 46 →
    (∀ j, k < j → j < i → ispunct (toupper (name.getD j 0)) = false) →
    ∀ j, k ≤ j → j < i → (scanLoop i name 0).name.getD j 0 = toupper (name.getD j 0) := by
  induction i with
  | zero => intro name k hk; omega
  | succ i ih =>
    intro name k hk hlen hdot hp j hkj hji
    have hil : i < name.length := by omega
    simp only [scanLoop]
    rw [getD_set_self name i hil]
    by_cases hki : k = i
    · subst hki
      have hj : j = k := by omega
      subst hj
      simp only [hdot, and_self, if_true]
      rw [scanLoop_getD_ge _ _ _ _ (le_refl _), getD_set_self name j hil]
    · have hki2 : k < i := by omega
      have hnp := hp i hki2 (by omega)
      have hnd : toupper (name.getD i 0) ≠ 46 := by
        intro h; rw [h] at hnp; revert hnp; decide
      simp only [hnd, and_false, if_false, hnp]
      by_cases hji2 : j = i
      · subst hji2
        simp only [Bool.false_eq_true, if_false]
        rw [scanLoop_getD_ge _ _ _ _ (le_refl _), getD_set_self name j hil]
      · simp only [Bool.false_eq_true, if_false]
        rw [ih (name.set i (toupper (name.getD i 0))) k hki2 (by simp; omega)
          (by rw [getD_set_other name i k (by omega)]; exact hdot)
          (by
            intro j2 h1 h2
            rw [getD_set_other name i j2 (by omega)]
            exact hp j2 h1 (by omega))
          j hkj (by omega)]
        rw [getD_set_other name i j (by omega)]

theorem drop_four (s : Str) (m : Nat) (h : s.length = m + 4) :
    s.drop m = [s.getD m 0, s.getD (m + 1) 0, s.getD (m + 2) 0, s.getD (m + 3) 0] := by
  rw [List.getD_eq_getElem s 0 (show m < s.length by omega),
    List.getD_eq_getElem s 0 (show m + 1 < s.length by omega),
    List.getD_eq_getElem s 0 (show m + 2 < s.length by omega),
    List.getD_eq_getElem s 0 (show m + 3 < s.length by omega)]
  apply List.ext_getElem
  · simp [h]
  · intro n h1 h2
    simp at h2
    simp only [List.getElem_drop]
    rcases n with _ | _ | _ | _ | n
    · simp
    · simp
    · simp
    · simp
    · omega

theorem ends_with_four (s : Str) (a b c d : Nat) :
    ends_with s [a, b, c, d] = true ↔
      4 ≤ s.length ∧ s.getD (s.length - 4) 0 = a ∧ s.getD (s.length - 3) 0 = b ∧
        s.getD (s.length - 2) 0 = c ∧ s.getD (s.length - 1) 0 = d := by
  unfold ends_with
  by_cases h : 4 ≤ s.length
  · have h4 : s.length = (s.length - 4) + 4 := by omega
    have e1 : s.length - 4 + 1 = s.length - 3 := by omega
    have e2 : s.length - 4 + 2 = s.length - 2 := by omega
    have e3 : s.length - 4 + 3 = s.length - 1 := by omega
    simp only [List.length_cons, List.length_nil]
    rw [drop_four s (s.length - 4) h4, e1, e2, e3]
    simp [h]
  · simp [h]


theorem upper_getD (f : Str) (j : Nat) : (upper f).getD j 0 = toupper (f.getD j 0) := by
  have h := @List.getD_map _ _ f 0 j toupper
  rw [toupper_zero] at h
  exact h

/-- The scanned name ends with a four-character extension exactly when the
upper-cased file name does. -/
theorem scanName_ends_with (f : Str) (x y z : Nat)
    (hx : toupper x = x) (hy : toupper y = y) (hz : toupper z = z)
    (px : ispunct x = false) (py : ispunct y = false) (pz : ispunct z = false) :
    ends_with (scanName f).name [46, x, y, z] = ends_with (upper f) [46, x, y, z] := by
  rw [Bool.eq_iff_iff, ends_with_four, ends_with_four]
  have hl : (scanName f).name.length = f.length := scanLoop_length _ _ _
  have hu : (upper f).length = f.length := by simp [upper]
  rw [hl, hu]
  simp only [upper_getD]
  constructor
  · rintro ⟨h4, ha, hb, hc, hd⟩
    have t := fun j => scanLoop_toupper f.length f 0 j
    refine ⟨h4, ?_, ?_, ?_, ?_⟩
    · rw [← t]; show toupper ((scanName f).name.getD _ 0) = _; rw [ha]; decide
    · rw [← t]; show toupper ((scanName f).name.getD _ 0) = _; rw [hb]; exact hx
    · rw [← t]; show toupper ((scanName f).name.getD _ 0) = _; rw [hc]; exact hy
    · rw [← t]; show toupper ((scanName f).name.getD _ 0) = _; rw [hd]; exact hz
  · rintro ⟨h4, ha, hb, hc, hd⟩
    have cov := scanLoop_covers f.length f (f.length - 4) (by omega) (le_refl _) ha
      (by
        intro j h1 h2
        have hj : j = f.length - 3 ∨ j = f.length - 2 ∨ j = f.length - 1 := by omega
        rcases hj with hj | hj | hj
        · rw [hj, hb]; exact px
        · rw [hj, hc]; exact py
        · rw [hj, hd]; exact pz)
    refine ⟨h4, ?_, ?_, ?_, ?_⟩
    · show (scanLoop f.length f 0).name.getD _ 0 = _
      rw [cov _ (le_refl _) (by omega), ha]
    · show (scanLoop f.length f 0).name.getD _ 0 = _
      rw [cov _ (by omega) (by omega), hb]
    · show (scanLoop f.length f 0).name.getD _ 0 = _
      rw [cov _ (by omega) (by omega), hc]
    · show (scanLoop f.length f 0).name.getD _ 0 = _
      rw [cov _ (by omega) (by omega), hd]

theorem scanName_ends_with_PRG (f : Str) :
    ends_with (scanName f).name (str ".PRG") = ends_with (upper f) (str ".PRG") :=
  scanName_ends_with f 80 82 71 (by decide) (by decide) (by decide) (by decide) (by decide)
    (by decide)

theorem scanName_ends_with_SEQ (f : Str) :
    ends_with (scanName f).name (str ".SEQ") = ends_with (upper f) (str ".SEQ") :=
  scanName_ends_with f 83 69 81 (by decide) (by decide) (by decide) (by decide) (by decide)
    (by decide)

theorem scanName_ends_with_USR (f : Str) :
    ends_with (scanName f).name (str ".USR") = ends_with (upper f) (str ".USR") :=
  scanName_ends_with f 85 83 82 (by decide) (by decide) (by decide) (by decide) (by decide)
    (by decide)

theorem scanName_ends_with_REL (f : Str) :
    ends_with (scanName f).name (str ".REL") = ends_with (upper f) (str ".REL") :=
  scanName_ends_with f 82 69 76 (by decide) (by decide) (by decide) (by decide) (by decide)
    (by decide)

/-- An upper-cased name has at most one of the four endings. -/
theorem ends_with_four_unique (s : Str) (a b c a2 b2 c2 : Nat)
    (h1 : ends_with s [46, a, b, c] = true) (h2 : ends_with s [46, a2, b2, c2] = true) :
    a = a2 ∧ b = b2 ∧ c = c2 := by
  rw [ends_with_four] at h1 h2
  obtain ⟨_, _, hb, hc, hd⟩ := h1
  obtain ⟨_, _, hb2, hc2, hd2⟩ := h2
  exact ⟨hb.symm.trans hb2, hc.symm.trans hc2, hd.symm.trans hd2⟩

/-- The type chosen by `handleAdd` in terms of the upper-cased file name. -/
theorem addFileType_scanName (f : Str) :
    (addFileType (scanName f).name).map Prod.fst =
      if ends_with (upper f) (str ".REL") then none else some (specType f) := by
  unfold addFileType specType
  rw [scanName_ends_with_PRG, scanName_ends_with_SEQ, scanName_ends_with_USR,
    scanName_ends_with_REL]
  by_cases hp : ends_with (upper f) (str ".PRG") = true
  · have hs : ends_with (upper f) (str ".SEQ") = false := by
      rw [Bool.eq_false_iff]; intro h
      have := ends_with_four_unique _ _ _ _ _ _ _ hp h
      exact absurd this (by decide)
    have hu : ends_with (upper f) (str ".USR") = false := by
      rw [Bool.eq_false_iff]; intro h
      have := ends_with_four_unique _ _ _ _ _ _ _ hp h
      exact absurd this (by decide)
    have hr : ends_with (upper f) (str ".REL") = false := by
      rw [Bool.eq_false_iff]; intro h
      have := ends_with_four_unique _ _ _ _ _ _ _ hp h
      exact absurd this (by decide)
    simp [hp, hs, hu, hr]
  · by_cases hs : ends_with (upper f) (str ".SEQ") = true
    · have hr : ends_with (upper f) (str ".REL") = false := by
        rw [Bool.eq_false_iff]; intro h
        have := ends_with_four_unique _ _ _ _ _ _ _ hs h
        exact absurd this (by decide)
      simp [hp, hs, hr]
    · by_cases hu : ends_with (upper f) (str ".USR") = true
      · have hr : ends_with (upper f) (str ".REL") = false := by
          rw [Bool.eq_false_iff]; intro h
          have := ends_with_four_unique _ _ _ _ _ _ _ hu h
          exact absurd this (by decide)
        simp [hp, hs, hu, hr]
      · by_cases hr : ends_with (upper f) (str ".REL") = true
        · simp [hp, hs, hu, hr]
        · simp [hp, hs, hu, hr]

/-! ## The claims -/

/-- C1 (code defect): the name `handleAdd` and `handleAddRel` hand to the engine
is not the upper-cased basename up to its last `.` when the stem contains
punctuation: for `my_file.prg` the engine gets `FILE` where the specification
prescribes `MY_FILE`, and for `a.b.prg` it gets `B` where the specification
prescribes `A.B`. -/
theorem C1_engineName_cuts_stem_at_punctuation :
    engineName (str "my_file.prg") = str "FILE" ∧
    specName (str "my_file.prg") = str "MY_FILE" ∧
    engineName (str "a.b.prg") = str "B" ∧
    specName (str "a.b.prg") = str "A.B" ∧
    (handleAdd diskEngine (str "d.d64") (str "my_file.prg")
        (St.initial (hostWith [str "my_file.prg"]) [])).2 =
      [.load .disk (str "d.d64") true, .addFile .disk (str "FILE") FileTypes.PRG [1, 8],
        .save .disk (str "d.d64")] ∧
    (handleAddRel diskEngine (str "d.d64") (str "a.b.rel") 10
        (St.initial (hostWith [str "a.b.rel"]) [])).2 =
      [.load .disk (str "d.d64") true, .addRelFile .disk (str "B") FileTypes.REL 10 [1, 8],
        .save .disk (str "d.d64")] := by
  decide

/-- C2 (code defect): `handleUnlock` issues the very engine calls of `handleLock`:
it calls `lockfile(filename, true)` and never `lockfile(filename, false)`, and it
leaves the program state as `handleLock` does; on an image whose file `GAME` is
locked, the file is still locked in the image that `handleUnlock` saves. -/
theorem C2_handleUnlock_issues_the_calls_of_handleLock (E : Engine D W)
    (diskfile filename : Str) (s : St W) :
    (handleUnlock E diskfile filename s).1 = (handleLock E diskfile filename s).1 ∧
    (handleUnlock E diskfile filename s).2.filter Event.isCall =
      (handleLock E diskfile filename s).2.filter Event.isCall ∧
    (handleUnlock E diskfile filename s).2.all
      (fun e => e != Event.lockfile .disk filename false) = true ∧
    (handleUnlock diskEngine (str "d.d64") (str "GAME") (St.initial hostLocked [])).2 =
      [.load .disk (str "d.d64") true, .lockfile .disk (str "GAME") true,
        .save .disk (str "d.d64")] ∧
    (handleUnlock diskEngine (str "d.d64") (str "GAME") (St.initial hostLocked [])).1.world =
      hostLocked := by
  refine ⟨?_, ?_, ?_, by decide, by decide⟩
  · unfold handleUnlock handleLock
    dsimp only
    split_ifs <;> rfl
  · unfold handleUnlock handleLock
    dsimp only
    split_ifs <;> rfl
  · unfold handleUnlock
    dsimp only
    split_ifs <;> simp

/-- An `addFile` call of `handleAdd` carries the scanned name and the type chosen
from it. -/
theorem handleAdd_addFile_mem (E : Engine D W) (diskfile filename : Str) (s : St W)
    (o : Obj) (name : Str) (type : FileTypes) (data : List Nat)
    (h : Event.addFile o name type data ∈ (handleAdd E diskfile filename s).2) :
    ∃ unknown, addFileType (scanName filename).name = some (type, unknown) ∧
      name = engineName filename ∧ o = .disk ∧ E.ifstream s.world filename = some data := by
  unfold handleAdd at h
  dsimp only at h
  split_ifs at h with hl
  · split at h
    · simp at h
    · rename_i fileData hopen
      split at h
      · simp at h
      · rename_i filetype unknown hty
        split_ifs at h with ha hu hu
        all_goals
          simp at h
          obtain ⟨h1, h2, h3, h4⟩ := h
          subst h1 h2 h3 h4
          exact ⟨unknown, hty, rfl, rfl, hopen⟩
  · simp at h

theorem ends_with_upper_of_last_four (filename ext : Str) (hext4 : ext.length = 4)
    (hlen : 4 ≤ filename.length)
    (hext : upper (filename.drop (filename.length - 4)) = ext) :
    ends_with (upper filename) ext = true := by
  unfold ends_with
  have hu : (upper filename).length = filename.length := by simp [upper]
  have hd : (upper filename).drop (filename.length - 4) = ext := by
    rw [← hext]; simp [upper, List.map_drop]
  simp [hu, hext4, hlen, hd]

/-- C3: when the last four characters of the file name are `.rel` in any mix of
letter case (the disk loads and the host file opens), `handleAdd` issues the
load only, reports the use-addrel error and leaves the host file system as it
was: no `addFile` and no `save` is called. -/
theorem C3_handleAdd_rejects_rel (E : Engine D W) (diskfile filename : Str) (s : St W)
    (fileData : List Nat)
    (hload : (E.load E.init s.world diskfile).2 = true)
    (hopen : E.ifstream s.world filename = some fileData)
    (hlen : 4 ≤ filename.length)
    (hext : upper (filename.drop (filename.length - 4)) = str ".REL") :
    (handleAdd E diskfile filename s).2 = [.load .disk diskfile true, .cerr .useAddRel] ∧
    (handleAdd E diskfile filename s).1.world = s.world ∧
    (∀ o name type data, Event.addFile o name type data ∉ (handleAdd E diskfile filename s).2) ∧
    (∀ o name, Event.save o name ∉ (handleAdd E diskfile filename s).2) := by
  have hrel : ends_with (upper filename) (str ".REL") = true :=
    ends_with_upper_of_last_four filename (str ".REL") (by decide) hlen hext
  have hty : addFileType (scanName filename).name = none := by
    have h := addFileType_scanName filename
    rw [hrel] at h
    simpa using h
  have hev : (handleAdd E diskfile filename s).2 =
      [.load .disk diskfile true, .cerr .useAddRel] := by
    unfold handleAdd
    simp only [hload, hopen, hty, if_true]
  have hw : (handleAdd E diskfile filename s).1.world = s.world := by
    unfold handleAdd
    simp only [hload, hopen, hty, if_true]
  refine ⟨hev, hw, ?_, ?_⟩
  · intro o name type data; rw [hev]; simp
  · intro o name; rw [hev]; simp

/-- Witness of C3: adding the host file `x.ReL` to the image `d.d64`. -/
theorem C3_handleAdd_rejects_rel_witness :
    (handleAdd diskEngine (str "d.d64") (str "x.ReL")
        (St.initial (hostWith [str "x.ReL"]) [])).2 =
      [.load .disk (str "d.d64") true, .cerr .useAddRel] ∧
    (handleAdd diskEngine (str "d.d64") (str "x.ReL")
        (St.initial (hostWith [str "x.ReL"]) [])).1.world = hostWith [str "x.ReL"] :=
  have h := C3_handleAdd_rejects_rel diskEngine (str "d.d64") (str "x.ReL")
    (St.initial (hostWith [str "x.ReL"]) []) [1, 8] (by decide) (by decide) (by decide)
    (by decide)
  ⟨h.1, h.2.1⟩

/-- C4: every `addFile` call of `handleAdd` passes the type the extension of the
file name decides case-insensitively - SEQ exactly for `.SEQ`, USR exactly for
`.USR`, PRG for every other ending - so the type is PRG, SEQ or USR and never REL
or DEL; the call is reached only for a name that does not end in `.REL`; and
the in-place upper-casing of the scan is enough for the four extension tests:
each gives on the scanned name what it gives on the fully upper-cased name. -/
theorem C4_handleAdd_type_by_extension (E : Engine D W) (diskfile filename : Str) (s : St W)
    (o : Obj) (name : Str) (type : FileTypes) (data : List Nat)
    (h : Event.addFile o name type data ∈ (handleAdd E diskfile filename s).2) :
    type = specType filename ∧
    (type = FileTypes.SEQ ↔ ends_with (upper filename) (str ".SEQ") = true) ∧
    (type = FileTypes.USR ↔ ends_with (upper filename) (str ".USR") = true) ∧
    (type = FileTypes.PRG ↔ (ends_with (upper filename) (str ".SEQ") = false ∧
      ends_with (upper filename) (str ".USR") = false)) ∧
    (type = FileTypes.PRG ∨ type = FileTypes.SEQ ∨ type = FileTypes.USR) ∧
    type ≠ FileTypes.REL ∧ type ≠ FileTypes.DEL ∧
    ends_with (upper filename) (str ".REL") = false ∧
    (∀ ext, ext ∈ [str ".PRG", str ".SEQ", str ".USR", str ".REL"] →
      ends_with (scanName filename).name ext = ends_with (upper filename) ext) := by
  obtain ⟨unknown, hty, -, -, -⟩ := handleAdd_addFile_mem E diskfile filename s o name type data h
  have hs := addFileType_scanName filename
  rw [hty] at hs
  have hrel : ends_with (upper filename) (str ".REL") = false := by
    by_contra hc
    rw [Bool.not_eq_false] at hc
    rw [hc] at hs
    simp at hs
  rw [hrel] at hs
  have ht : type = specType filename := by simpa using hs
  have hcov : ∀ ext, ext ∈ [str ".PRG", str ".SEQ", str ".USR", str ".REL"] →
      ends_with (scanName filename).name ext = ends_with (upper filename) ext := by
    intro ext hext
    simp only [List.mem_cons, List.mem_singleton, List.not_mem_nil, or_false] at hext
    rcases hext with rfl | rfl | rfl | rfl
    · exact scanName_ends_with_PRG filename
    · exact scanName_ends_with_SEQ filename
    · exact scanName_ends_with_USR filename
    · exact scanName_ends_with_REL filename
  have hexcl : ¬ (ends_with (upper filename) (str ".SEQ") = true ∧
      ends_with (upper filename) (str ".USR") = true) := by
    rintro ⟨h1, h2⟩
    exact absurd (ends_with_four_unique _ _ _ _ _ _ _ h1 h2) (by decide)
  subst ht
  refine ⟨rfl, ?_, ?_, ?_, ?_, ?_, ?_, hrel, hcov⟩
  all_goals
    unfold specType
    by_cases h1 : ends_with (upper filename) (str ".SEQ") = true
    · have h2 : ends_with (upper filename) (str ".USR") = false := by
        rw [Bool.eq_false_iff]; intro h2; exact hexcl ⟨h1, h2⟩
      simp [h1, h2, FileTypes.SEQ, FileTypes.USR, FileTypes.PRG, FileTypes.REL, FileTypes.DEL]
    · rw [Bool.not_eq_true] at h1
      by_cases h2 : ends_with (upper filename) (str ".USR") = true
      · simp [h1, h2, FileTypes.SEQ, FileTypes.USR, FileTypes.PRG, FileTypes.REL,
          FileTypes.DEL]
      · rw [Bool.not_eq_true] at h2
        simp [h1, h2, FileTypes.SEQ, FileTypes.USR, FileTypes.PRG, FileTypes.REL,
          FileTypes.DEL]

/-- Witness of C4: adding the host file `data.Seq` passes the type SEQ. -/
theorem C4_handleAdd_type_by_extension_witness :
    Event.addFile .disk (str "DATA") FileTypes.SEQ [1, 8] ∈
      (handleAdd diskEngine (str "d.d64") (str "data.Seq")
        (St.initial (hostWith [str "data.Seq"]) [])).2 ∧
    FileTypes.SEQ = specType (str "data.Seq") :=
  ⟨by decide,
    (C4_handleAdd_type_by_extension diskEngine (str "d.d64") (str "data.Seq")
      (St.initial (hostWith [str "data.Seq"]) []) .disk (str "DATA") FileTypes.SEQ [1, 8]
      (by decide)).1⟩

/-- C5 (code defect): the roll-over test of `copyFiles` is
`(F + 2) * 256 <= S`, not `F < S + 2`: with no free sector on the target and a
one-sector file (`0 < 1 + 2`) the test is false, so `copyFiles` does not roll
over and calls `addFile` on the full target; a backup of the one-sector file `A`
onto a target without free sectors formats no new target. -/
theorem C5_rollover_test_is_not_free_below_size_plus_two :
    (∀ (F : Nat) (e : DirEntry),
      wontFit F e = decide ((F + 2) * 256 ≤ e.file_size0 + e.file_size1 * 256)) ∧
    wontFit 0 ⟨pad16 (str "A"), 130, 1, 0⟩ = false ∧
    decide (0 < (1 + 0 * 256) + 2) = true ∧
    (handleBackup diskEngine (str "T.d64") [str "S.d64"] (St.initial hostFull [])).2 =
      [.load .target (str "T.d64") true, .rename_disk .target (str "BACKUP"),
        .save .target (str "T.d64"),
        .load .sourceDisk (str "S.d64") true, .load .targetDisk (str "T.d64") true,
        .addFile .targetDisk (str "A") 130 [1, 8], .save .targetDisk (str "T.d64")] ∧
    (handleBackup diskEngine (str "T.d64") [str "S.d64"]
      (St.initial hostFull [])).1.world.images.lookup (str "T.d64") =
      some ⟨str "BACKUP", [⟨str "BIG", 130, 664, false, some [0]⟩], 0⟩ := by
  refine ⟨fun F e => rfl, by decide, by decide, by decide, by decide⟩

/-- C6 (code defect): at a roll-over `copyFiles` formats the in-memory target
without saving it first: the calls are `formatDisk` and then `save` under the new
name, and `Backup` ends with a `save` of the new image under the first target's
name.  In the run shown, `A` is copied, the roll-over for `B` wipes it, and
afterwards the first target file `T.d64` holds only `B`, the new file `T1.d64` is
empty, and neither `A` nor the earlier content `OLD` is in any image file. -/
theorem C6_rollover_formats_before_any_save :
    (∀ (E : Engine Disk Host) (e : DirEntry) (t : Disk) (s : St Host),
      (rollOver E e t s).2.2.head? =
        if wontFit (E.getFreeSectorCount t) e then
          some (.formatDisk .targetDisk (cstrPlus (str "BACKUP") ((s.backup_disk_num + 1) % 256)))
        else none) ∧
    (handleBackup diskEngine (str "T.d64") [str "S.d64"] (St.initial hostRoll [])).2 =
      [.load .target (str "T.d64") true, .rename_disk .target (str "BACKUP"),
        .save .target (str "T.d64"),
        .load .sourceDisk (str "S.d64") true, .load .targetDisk (str "T.d64") true,
        .addFile .targetDisk (str "A") 130 [1, 8],
        .formatDisk .targetDisk none, .save .targetDisk (str "T1.d64"),
        .addFile .targetDisk (str "B") 130 [2, 9], .save .targetDisk (str "T.d64")] ∧
    (handleBackup diskEngine (str "T.d64") [str "S.d64"]
      (St.initial hostRoll [])).1.world.images =
      [(str "T.d64", ⟨[], [⟨str "B", 130, 1, false, some [2, 9]⟩], 663⟩),
        (str "T1.d64", ⟨[], [], 664⟩),
        (str "S.d64", ⟨str "GAMES",
          [⟨str "A", 130, 1, false, some [1, 8]⟩, ⟨str "B", 130, 65535, false, some [2, 9]⟩], 600⟩)] := by
  refine ⟨?_, by decide, by decide⟩
  intro E e t s
  unfold rollOver
  split_ifs <;> rfl

/-- C7 (code defect): the argument of `formatDisk` at a roll-over is the pointer
expression `"BACKUP" + backup_disk_num`, which is the literal advanced by the
character code: for each of the first 207 roll-overs of a run (codes 49 to 255)
the offset lies outside the seven bytes of the literal, so the argument is not
the string `BACKUP` followed by a digit; at the first roll-over of a run on
`T.d64` the call is `formatDisk` of an undefined string, while the file name of
the same roll-over is the concatenation `T1.d64`. -/
theorem C7_formatDisk_argument_is_pointer_arithmetic :
    (∀ k : Fin 207, cstrPlus (str "BACKUP") ((48 + (k.val + 1)) % 256) = none) ∧
    cstrPlus (str "BACKUP") 49 = none ∧
    (some (str "BACKUP1") == cstrPlus (str "BACKUP") 49) = false ∧
    (rollOver diskEngine ⟨pad16 (str "B"), 130, 255, 255⟩
        ⟨str "BACKUP", [], 102⟩
        (backupPrepare diskEngine (str "T.d64") (St.initial hostRoll [])).st).2.2 =
      [.formatDisk .targetDisk none, .save .targetDisk (str "T1.d64")] := by
  refine ⟨?_, by decide, by decide, by decide⟩
  intro k
  have hk := k.isLt
  unfold cstrPlus
  have hl : (str "BACKUP").length = 6 := by decide
  rw [hl]
  split_ifs with h
  · omega
  · rfl

/-! ## Lemmas on the roll-over names of a backup run -/

theorem newTargets_append (target : Str) (a b : List Event) :
    newTargets target (a ++ b) = newTargets target a ++ newTargets target b := by
  simp [newTargets]

theorem rollNames_congr (base : Str) (r : Nat) : ∀ c c2 : Nat, c % 256 = c2 % 256 →
    rollNames base c r = rollNames base c2 r := by
  intro c c2 h
  cases r with
  | zero => rfl
  | succ r =>
    have h1 : (c + 1) % 256 = (c2 + 1) % 256 := by omega
    simp only [rollNames, h1]

theorem rollNames_add (base : Str) (r1 : Nat) : ∀ (c r2 : Nat),
    rollNames base c (r1 + r2) = rollNames base c r1 ++ rollNames base (c + r1) r2 := by
  induction r1 with
  | zero => intro c r2; simp [rollNames]
  | succ r1 ih =>
    intro c r2
    have e : r1 + 1 + r2 = (r1 + r2) + 1 := by omega
    rw [e]
    simp only [rollNames, ih, List.cons_append]
    rw [rollNames_congr base r2 ((c + 1) % 256 + r1) (c + (r1 + 1)) (by omega)]

theorem rollNames_length (base : Str) (r : Nat) : ∀ c, (rollNames base c r).length = r := by
  induction r with
  | zero => intro c; rfl
  | succ r ih => intro c; simp [rollNames, ih]

theorem rollNames_getElem? (base : Str) (r : Nat) : ∀ (c k : Nat), k < r →
    (rollNames base c r)[k]? = some (base ++ [(c + (k + 1)) % 256] ++ str ".d64") := by
  induction r with
  | zero => intro c k h; omega
  | succ r ih =>
    intro c k h
    cases k with
    | zero => simp [rollNames]
    | succ k =>
      simp only [rollNames, List.getElem?_cons_succ]
      rw [ih _ _ (by omega)]
      have e : ((c + 1) % 256 + (k + 1)) % 256 = (c + (k + 1 + 1)) % 256 := by omega
      rw [e]

theorem Rolls.same (s s' : St W) (ev : List Event)
    (hb : s'.target_backup_base_name = s.target_backup_base_name)
    (hc : s'.backup_disk_num = s.backup_disk_num)
    (he : newTargets (s.target_backup_base_name ++ str ".d64") ev = []) : Rolls s s' ev :=
  ⟨hb, fun h => hc ▸ h, 0, by rw [he]; rfl, by rw [hc]; rfl⟩

theorem Rolls.trans {s s1 s2 : St W} {e1 e2 : List Event}
    (h1 : Rolls s s1 e1) (h2 : Rolls s1 s2 e2) : Rolls s s2 (e1 ++ e2) := by
  obtain ⟨hb1, hl1, r1, hn1, hc1⟩ := h1
  obtain ⟨hb2, hl2, r2, hn2, hc2⟩ := h2
  refine ⟨hb2.trans hb1, fun h => hl2 (hl1 h), r1 + r2, ?_, ?_⟩
  · rw [newTargets_append, hn1, ← hb1, hn2, hb1, rollNames_add]
    rw [rollNames_congr _ r2 s1.backup_disk_num (s.backup_disk_num + r1) (by omega)]
  · omega

theorem rollOver_name_ne (base : Str) (c : Nat) :
    (base ++ [c] ++ str ".d64" = base ++ str ".d64") = False := by
  rw [eq_iff_iff, iff_false]
  intro h
  have := congrArg List.length h
  simp at this

theorem rollOver_Rolls (E : Engine D W) (e : DirEntry) (t : D) (s : St W) :
    Rolls s (rollOver E e t s).2.1 (rollOver E e t s).2.2 := by
  unfold rollOver
  split_ifs with h
  · refine ⟨rfl, fun _ => Nat.mod_lt _ (by decide), 1, ?_, ?_⟩
    · simp [newTargets, newTarget, rollNames, rollOver_name_ne]
    · simp
  · exact Rolls.same s s [] rfl rfl rfl

theorem copyOne_Rolls (E : Engine D W) (src : D) (e : DirEntry) (filename : Str) (t : D)
    (s : St W) :
    Rolls s (copyOne E src e filename t s).st (copyOne E src e filename t s).events := by
  have h := rollOver_Rolls E e t s
  unfold copyOne
  dsimp only
  split
  · exact h.trans (Rolls.same _ _ _ rfl rfl (by simp [newTargets, newTarget]))
  · exact h.trans (Rolls.same _ _ _ rfl rfl (by simp [newTargets, newTarget]))

theorem newTargets_confirmLoop (target filename : Str) (c : ComformationType) (cin : List Nat) :
    newTargets target (confirmLoop filename c cin).events = [] := by
  induction cin with
  | nil => unfold confirmLoop; split_ifs <;> rfl
  | cons r rest ih =>
    unfold confirmLoop
    split_ifs <;> simp_all [newTargets, newTarget]

theorem copyEntry_Rolls (E : Engine D W) (src : D) (e : DirEntry) (t : D) (s : St W) :
    Rolls s (copyEntry E src e t s).st (copyEntry E src e t s).events := by
  unfold copyEntry
  dsimp only
  split_ifs with hx hh hs
  · exact Rolls.same _ _ _ rfl rfl (newTargets_confirmLoop _ _ _ _)
  · exact Rolls.same _ _ _ rfl rfl (newTargets_confirmLoop _ _ _ _)
  · refine Rolls.trans (Rolls.same _ _ _ rfl rfl ?_) (copyOne_Rolls E src e _ _ _)
    simp [newTargets_append, newTargets_confirmLoop]
    simp [newTargets, newTarget]
  · exact copyOne_Rolls E src e _ t s

theorem copyLoop_Rolls (E : Engine D W) (src : D) (es : List DirEntry) : ∀ (t : D) (s : St W),
    Rolls s (copyLoop E src es t s).st (copyLoop E src es t s).events := by
  induction es with
  | nil => intro t s; exact Rolls.same _ _ _ rfl rfl rfl
  | cons e es ih =>
    intro t s
    have h := copyEntry_Rolls E src e t s
    unfold copyLoop
    dsimp only
    split
    · exact h.trans (ih _ _)
    · exact h

theorem loadDisks_newTargets (E : Engine D W) (source target : Str) (s : St W) (t : Str) :
    newTargets t (loadDisks E source target s).events = [] := by
  unfold loadDisks; dsimp only; split_ifs <;> simp [newTargets, newTarget]

theorem copyFiles_Rolls (E : Engine D W) (src t : D) (s : St W) :
    Rolls s (copyFiles E src t s).st (copyFiles E src t s).events :=
  copyLoop_Rolls E src _ t s

theorem Backup_Rolls (E : Engine D W) (source : Str) (s : St W) :
    Rolls s (Backup E source (s.target_backup_base_name ++ str ".d64") s).1
      (Backup E source (s.target_backup_base_name ++ str ".d64") s).2 := by
  unfold Backup
  dsimp only
  have hload : Rolls s s
      (loadDisks E source (s.target_backup_base_name ++ str ".d64") s).events :=
    Rolls.same _ _ _ rfl rfl (loadDisks_newTargets _ _ _ _ _)
  have hcopy := copyFiles_Rolls E
    (loadDisks E source (s.target_backup_base_name ++ str ".d64") s).sourceDisk
    (loadDisks E source (s.target_backup_base_name ++ str ".d64") s).targetDisk s
  split_ifs with hl
  · exact hload
  · split
    · exact hload.trans hcopy
    · exact (hload.trans hcopy).trans (Rolls.same _ _ _ rfl rfl (by simp [newTargets, newTarget]))
    · refine (hload.trans hcopy).trans (Rolls.same _ _ _ rfl rfl ?_)
      simp [newTargets, newTarget, hcopy.1]

theorem backupLoop_Rolls (E : Engine D W) (disks : List Str) : ∀ (s : St W),
    Rolls s (backupLoop E (s.target_backup_base_name ++ str ".d64") disks s).1
      (backupLoop E (s.target_backup_base_name ++ str ".d64") disks s).2 := by
  induction disks with
  | nil => intro s; exact Rolls.same _ _ _ rfl rfl rfl
  | cons src rest ih =>
    intro s
    have hb := Backup_Rolls E src s
    unfold backupLoop
    dsimp only
    split_ifs with hh
    · exact hb
    · have hi := ih (Backup E src (s.target_backup_base_name ++ str ".d64") s).1
      rw [hb.1] at hi
      exact hb.trans hi

theorem rollNames_eq_map (base : Str) (c r : Nat) :
    rollNames base c r =
      (List.range r).map (fun k => base ++ [(c + (k + 1)) % 256] ++ str ".d64") := by
  apply List.ext_getElem?
  intro k
  by_cases hk : k < r
  · rw [rollNames_getElem? base r c k hk]
    simp [List.getElem?_range hk, hk]
  · rw [List.getElem?_eq_none (by rw [rollNames_length]; omega),
      List.getElem?_eq_none (by simp; omega)]

/-- C8 (as amended): `handleBackup` sets the counter to `'0'` before the first
source, and in the whole run the new target files, in the order they are
written, are named by the base name, the character with code `'0' + k` modulo 256
for the k-th of them, and `.d64`; the counter ends at `'0'` plus the number of
roll-overs modulo 256 and the base name is not changed.  For k from 1 to 9 that
character is the decimal digit of k. -/
theorem C8_new_targets_are_named_by_the_counter_character (E : Engine D W) (diskfile : Str)
    (disks : List Str) (s : St W) :
    (backupPrepare E diskfile s).st.backup_disk_num = 48 ∧
    (backupPrepare E diskfile s).st.target_backup_base_name = backupBase diskfile ∧
    newTargets (backupBase diskfile ++ str ".d64") (handleBackup E diskfile disks s).2 =
      (List.range
        (newTargets (backupBase diskfile ++ str ".d64") (handleBackup E diskfile disks s).2).length).map
        (fun k => backupBase diskfile ++ [(48 + (k + 1)) % 256] ++ str ".d64") ∧
    (handleBackup E diskfile disks s).1.backup_disk_num =
      (48 + (newTargets (backupBase diskfile ++ str ".d64")
        (handleBackup E diskfile disks s).2).length) % 256 ∧
    (handleBackup E diskfile disks s).1.target_backup_base_name = backupBase diskfile ∧
    (∀ k : Fin 9, [(48 + (k.val + 1)) % 256] = str (toString (k.val + 1))) := by
  have hl := backupLoop_Rolls E disks (backupPrepare E diskfile s).st
  have hbase : (backupPrepare E diskfile s).st.target_backup_base_name = backupBase diskfile :=
    rfl
  have hnum : (backupPrepare E diskfile s).st.backup_disk_num = 48 := rfl
  have hname : (backupPrepare E diskfile s).target_name = backupBase diskfile ++ str ".d64" := rfl
  have hpre : newTargets (backupBase diskfile ++ str ".d64") (backupPrepare E diskfile s).events
      = [] := by
    unfold backupPrepare; dsimp only; split_ifs <;> simp [newTargets, newTarget]
  obtain ⟨hb0, hlt0, r, hn0, hc0⟩ := hl
  have hb : (backupLoop E (backupBase diskfile ++ str ".d64") disks
      (backupPrepare E diskfile s).st).1.target_backup_base_name = backupBase diskfile := hb0
  have hlt : 48 < 256 → (backupLoop E (backupBase diskfile ++ str ".d64") disks
      (backupPrepare E diskfile s).st).1.backup_disk_num < 256 := hlt0
  have hn : newTargets (backupBase diskfile ++ str ".d64")
      (backupLoop E (backupBase diskfile ++ str ".d64") disks (backupPrepare E diskfile s).st).2 =
      rollNames (backupBase diskfile) 48 r := hn0
  have hc : (backupLoop E (backupBase diskfile ++ str ".d64") disks
      (backupPrepare E diskfile s).st).1.backup_disk_num % 256 = (48 + r) % 256 := hc0
  have hev : newTargets (backupBase diskfile ++ str ".d64") (handleBackup E diskfile disks s).2 =
      rollNames (backupBase diskfile) 48 r := by
    unfold handleBackup
    dsimp only
    rw [newTargets_append, hpre, hname, hn]
    rfl
  have hlen : (newTargets (backupBase diskfile ++ str ".d64")
      (handleBackup E diskfile disks s).2).length = r := by
    rw [hev, rollNames_length]
  refine ⟨hnum, hbase, ?_, ?_, ?_, by decide⟩
  · rw [hlen, hev, rollNames_eq_map]
  · rw [hlen]
    have h256 := hlt (by decide)
    show (backupLoop E (backupPrepare E diskfile s).target_name disks
      (backupPrepare E diskfile s).st).1.backup_disk_num = _
    rw [hname]
    omega
  · show (backupLoop E (backupPrepare E diskfile s).target_name disks
      (backupPrepare E diskfile s).st).1.target_backup_base_name = _
    rw [hname]
    exact hb

/-- C8 (counterexample): in a run with ten roll-overs (ten files of 512 sectors,
the target reported full each time) the new targets are `T1.d64` to `T9.d64` and
then `T:.d64`: the character of the tenth is `:`, which is no decimal digit. -/
theorem C8_tenth_new_target_has_no_digit :
    newTargets (str "T.d64")
        (handleBackup fullEngine (str "T.d64") [str "S.d64"] (St.initial hostTen [])).2 =
      [str "T1.d64", str "T2.d64", str "T3.d64", str "T4.d64", str "T5.d64", str "T6.d64",
        str "T7.d64", str "T8.d64", str "T9.d64", str "T:.d64"] ∧
    (∀ d : Fin 10, (str "T" ++ [48 + d.val] ++ str ".d64" == str "T:.d64") = false) := by
  refine ⟨by decide, by decide⟩

/-! ## Lemmas on one round of `copyFiles` -/

theorem confirmLoop_events (filename : Str) (c : ComformationType) (cin : List Nat) :
    ∀ ev ∈ (confirmLoop filename c cin).events, ev = Event.prompt filename := by
  induction cin with
  | nil => unfold confirmLoop; split_ifs <;> simp
  | cons r rest ih =>
    unfold confirmLoop
    split_ifs
    all_goals first
      | (simp; done)
      | simpa using ih

theorem rollOver_events (E : Engine D W) (e : DirEntry) (t : D) (s : St W) :
    (rollOver E e t s).2.2 = [] ∨
      ∃ label name, (rollOver E e t s).2.2 =
        [.formatDisk .targetDisk label, .save .targetDisk name] := by
  unfold rollOver
  split_ifs
  · exact Or.inr ⟨_, _, rfl⟩
  · exact Or.inl rfl

theorem copyOne_events (E : Engine D W) (src : D) (e : DirEntry) (filename : Str) (t : D)
    (s : St W) (fileData : List Nat) (h : E.readFile src filename = some fileData) :
    (copyOne E src e filename t s).flow = .next ∧
    (copyOne E src e filename t s).events =
      (rollOver E e t s).2.2 ++ [.addFile .targetDisk filename e.file_type fileData] ∧
    (copyOne E src e filename t s).st.conformation = s.conformation ∧
    (copyOne E src e filename t s).st.cin = s.cin ∧
    (copyOne E src e filename t s).targetDisk =
      (E.addFile (rollOver E e t s).1 filename e.file_type fileData).1 := by
  unfold copyOne
  simp only [h]
  refine ⟨trivial, trivial, ?_, ?_, trivial⟩ <;> (unfold rollOver; split_ifs <;> rfl)

theorem copyOne_unread (E : Engine D W) (src : D) (e : DirEntry) (filename : Str) (t : D)
    (s : St W) (h : E.readFile src filename = none) :
    (copyOne E src e filename t s).flow = .returnFalse ∧
    (copyOne E src e filename t s).events =
      (rollOver E e t s).2.2 ++ [.cerr (.failedToCopy filename)] ∧
    (copyOne E src e filename t s).st.conformation = s.conformation ∧
    (copyOne E src e filename t s).st.cin = s.cin ∧
    (copyOne E src e filename t s).targetDisk = (rollOver E e t s).1 := by
  unfold copyOne
  simp only [h]
  refine ⟨trivial, trivial, ?_, ?_, trivial⟩ <;> (unfold rollOver; split_ifs <;> rfl)

theorem rollOver_no_addFile (E : Engine D W) (e : DirEntry) (t : D) (s : St W) (m : Msg) :
    ∀ o name type data, Event.addFile o name type data ∉ (rollOver E e t s).2.2 ++ [.cerr m] := by
  intro o name type data
  rcases rollOver_events E e t s with h | ⟨l, n, h⟩ <;> rw [h] <;> simp

theorem copyLoop_stops (E : Engine D W) (src : D) (e : DirEntry) (rest : List DirEntry) (t : D)
    (s : St W) (h : (copyEntry E src e t s).flow = .returnFalse) :
    copyLoop E src (e :: rest) t s = copyEntry E src e t s := by
  conv_lhs => unfold copyLoop
  simp only [h]

/-- C9 (as amended): one round of `copyFiles`, for a source entry with trimmed
name `n`; a roll-over, where it occurs, is `formatDisk` followed by `save`.

If `n` is not on the target: no prompt is issued and `removeFile` is not called,
policy and console input stay as they were; when the source read succeeds the
round is a possible roll-over followed by `addFile(n, type, data)` on the target,
with the type of the entry and the data read; when the read returns nothing the
round is a possible roll-over followed by the failed-copy report, without any
`addFile`, and `copyFiles` returns false there.

If `n` is on the target and the policy after the confirmation loop is `skip_file`
or `skip_all`: the round issues only prompts, and the target image and the host
files are as before.

If `n` is on the target and the policy after the loop is `overwrite_file` or
`overwrite_all`: the round is the prompts and `removeFile(n)` on the target, then
a possible roll-over, then `addFile(n, type, data)` when the source read succeeds
and the failed-copy report with `return false`, without any `addFile`, when it
does not. -/
theorem C9_copyEntry_by_policy (E : Engine D W) (sourceDisk targetDisk : D)
    (fileEntry : DirEntry) (s : St W) :
    (∀ (t : D) (s2 : St W), (rollOver E fileEntry t s2).2.2 = [] ∨
      ∃ label name, (rollOver E fileEntry t s2).2.2 =
        [Event.formatDisk .targetDisk label, Event.save .targetDisk name]) ∧
    (fileExists E targetDisk (E.Trim fileEntry.file_name) = false →
      (∀ ev ∈ (copyEntry E sourceDisk fileEntry targetDisk s).events,
        ev ≠ Event.prompt (E.Trim fileEntry.file_name) ∧
        ev ≠ Event.removeFile .targetDisk (E.Trim fileEntry.file_name)) ∧
      (copyEntry E sourceDisk fileEntry targetDisk s).st.conformation = s.conformation ∧
      (copyEntry E sourceDisk fileEntry targetDisk s).st.cin = s.cin ∧
      (∀ fileData, E.readFile sourceDisk (E.Trim fileEntry.file_name) = some fileData →
        (copyEntry E sourceDisk fileEntry targetDisk s).flow = .next ∧
        (copyEntry E sourceDisk fileEntry targetDisk s).events =
          (rollOver E fileEntry targetDisk s).2.2 ++
            [.addFile .targetDisk (E.Trim fileEntry.file_name) fileEntry.file_type fileData] ∧
        (copyEntry E sourceDisk fileEntry targetDisk s).targetDisk =
          (E.addFile (rollOver E fileEntry targetDisk s).1 (E.Trim fileEntry.file_name)
            fileEntry.file_type fileData).1) ∧
      (E.readFile sourceDisk (E.Trim fileEntry.file_name) = none →
        (copyEntry E sourceDisk fileEntry targetDisk s).flow = .returnFalse ∧
        (copyEntry E sourceDisk fileEntry targetDisk s).events =
          (rollOver E fileEntry targetDisk s).2.2 ++
            [.cerr (.failedToCopy (E.Trim fileEntry.file_name))] ∧
        (copyEntry E sourceDisk fileEntry targetDisk s).targetDisk =
          (rollOver E fileEntry targetDisk s).1 ∧
        (∀ o name type data, Event.addFile o name type data ∉
          (copyEntry E sourceDisk fileEntry targetDisk s).events) ∧
        ∀ rest, copyLoop E sourceDisk (fileEntry :: rest) targetDisk s =
          (copyEntry E sourceDisk fileEntry targetDisk s))) ∧
    (fileExists E targetDisk (E.Trim fileEntry.file_name) = true →
      (confirmLoop (E.Trim fileEntry.file_name) s.conformation s.cin).hung = false →
      ((confirmLoop (E.Trim fileEntry.file_name) s.conformation s.cin).conformation = .skip_file ∨
        (confirmLoop (E.Trim fileEntry.file_name) s.conformation s.cin).conformation =
          .skip_all) →
      (copyEntry E sourceDisk fileEntry targetDisk s).events =
        (confirmLoop (E.Trim fileEntry.file_name) s.conformation s.cin).events ∧
      (∀ ev ∈ (copyEntry E sourceDisk fileEntry targetDisk s).events,
        ev = Event.prompt (E.Trim fileEntry.file_name)) ∧
      (copyEntry E sourceDisk fileEntry targetDisk s).targetDisk = targetDisk ∧
      (copyEntry E sourceDisk fileEntry targetDisk s).st.world = s.world ∧
      (copyEntry E sourceDisk fileEntry targetDisk s).st.conformation =
        (confirmLoop (E.Trim fileEntry.file_name) s.conformation s.cin).conformation ∧
      (copyEntry E sourceDisk fileEntry targetDisk s).flow = .next) ∧
    (fileExists E targetDisk (E.Trim fileEntry.file_name) = true →
      (confirmLoop (E.Trim fileEntry.file_name) s.conformation s.cin).hung = false →
      ((confirmLoop (E.Trim fileEntry.file_name) s.conformation s.cin).conformation =
          .overwrite_file ∨
        (confirmLoop (E.Trim fileEntry.file_name) s.conformation s.cin).conformation =
          .overwrite_all) →
      (∀ ev ∈ (confirmLoop (E.Trim fileEntry.file_name) s.conformation s.cin).events,
        ev = Event.prompt (E.Trim fileEntry.file_name)) ∧
      (∀ fileData, E.readFile sourceDisk (E.Trim fileEntry.file_name) = some fileData →
        (copyEntry E sourceDisk fileEntry targetDisk s).flow = .next ∧
        (copyEntry E sourceDisk fileEntry targetDisk s).events =
          (confirmLoop (E.Trim fileEntry.file_name) s.conformation s.cin).events ++
            [.removeFile .targetDisk (E.Trim fileEntry.file_name)] ++
            (rollOver E fileEntry (E.removeFile targetDisk (E.Trim fileEntry.file_name)).1 (s.confirmed (confirmLoop (E.Trim fileEntry.file_name) s.conformation s.cin))).2.2 ++
            [.addFile .targetDisk (E.Trim fileEntry.file_name) fileEntry.file_type fileData] ∧
        (copyEntry E sourceDisk fileEntry targetDisk s).targetDisk =
          (E.addFile (rollOver E fileEntry (E.removeFile targetDisk (E.Trim fileEntry.file_name)).1 (s.confirmed (confirmLoop (E.Trim fileEntry.file_name) s.conformation s.cin))).1
            (E.Trim fileEntry.file_name) fileEntry.file_type fileData).1) ∧
      (E.readFile sourceDisk (E.Trim fileEntry.file_name) = none →
        (copyEntry E sourceDisk fileEntry targetDisk s).flow = .returnFalse ∧
        (copyEntry E sourceDisk fileEntry targetDisk s).events =
          (confirmLoop (E.Trim fileEntry.file_name) s.conformation s.cin).events ++
            [.removeFile .targetDisk (E.Trim fileEntry.file_name)] ++
            (rollOver E fileEntry (E.removeFile targetDisk (E.Trim fileEntry.file_name)).1 (s.confirmed (confirmLoop (E.Trim fileEntry.file_name) s.conformation s.cin))).2.2 ++
            [.cerr (.failedToCopy (E.Trim fileEntry.file_name))] ∧
        (copyEntry E sourceDisk fileEntry targetDisk s).targetDisk =
          (rollOver E fileEntry (E.removeFile targetDisk (E.Trim fileEntry.file_name)).1 (s.confirmed (confirmLoop (E.Trim fileEntry.file_name) s.conformation s.cin))).1 ∧
        (∀ o name type data, Event.addFile o name type data ∉
          (copyEntry E sourceDisk fileEntry targetDisk s).events) ∧
        ∀ rest, copyLoop E sourceDisk (fileEntry :: rest) targetDisk s =
          (copyEntry E sourceDisk fileEntry targetDisk s))) := by
  refine ⟨fun t s2 => rollOver_events E fileEntry t s2, ?_, ?_, ?_⟩
  · intro hx
    have hcopy : (copyEntry E sourceDisk fileEntry targetDisk s) =
        copyOne E sourceDisk fileEntry (E.Trim fileEntry.file_name) targetDisk s := by
      unfold copyEntry
      dsimp only
      rw [if_neg (by rw [hx]; decide)]
    rw [hcopy]
    have hr := rollOver_events E fileEntry targetDisk s
    refine ⟨?_, ?_, ?_, ?_, ?_⟩
    · intro ev hev
      unfold copyOne at hev
      dsimp only at hev
      split at hev
      · rcases hr with hr | ⟨l, n, hr⟩ <;> rw [hr] at hev <;> simp at hev
        · subst hev; simp
        · rcases hev with rfl | rfl | rfl <;> simp
      · rcases hr with hr | ⟨l, n, hr⟩ <;> rw [hr] at hev <;> simp at hev
        · subst hev; simp
        · rcases hev with rfl | rfl | rfl <;> simp
    · unfold copyOne
      dsimp only
      split <;> (unfold rollOver; split_ifs <;> rfl)
    · unfold copyOne
      dsimp only
      split <;> (unfold rollOver; split_ifs <;> rfl)
    · intro fileData hread
      have h1 := copyOne_events E sourceDisk fileEntry _ targetDisk s fileData hread
      exact ⟨h1.1, h1.2.1, h1.2.2.2.2⟩
    · intro hread
      have h1 := copyOne_unread E sourceDisk fileEntry _ targetDisk s hread
      refine ⟨h1.1, h1.2.1, h1.2.2.2.2, ?_, ?_⟩
      · rw [h1.2.1]
        exact rollOver_no_addFile E fileEntry targetDisk s _
      · intro rest
        exact (copyLoop_stops E sourceDisk fileEntry rest targetDisk s
          (by rw [hcopy]; exact h1.1)).trans hcopy
  · intro hx hh hs
    have hs2 : (confirmLoop (E.Trim fileEntry.file_name) s.conformation s.cin).conformation =
        .skip_all ∨
        (confirmLoop (E.Trim fileEntry.file_name) s.conformation s.cin).conformation =
          .skip_file := hs.symm
    unfold copyEntry
    simp only [hx, if_true, hh, hs2, Bool.false_eq_true, if_false]
    exact ⟨trivial, confirmLoop_events _ _ _, trivial, trivial, trivial, trivial⟩
  · intro hx hh ho
    have hs2 : ¬ ((confirmLoop (E.Trim fileEntry.file_name) s.conformation s.cin).conformation =
        .skip_all ∨
        (confirmLoop (E.Trim fileEntry.file_name) s.conformation s.cin).conformation =
          .skip_file) := by
      rcases ho with ho | ho <;> rw [ho] <;> simp
    have hflow : (copyEntry E sourceDisk fileEntry targetDisk s).flow =
        (copyOne E sourceDisk fileEntry (E.Trim fileEntry.file_name) (E.removeFile targetDisk (E.Trim fileEntry.file_name)).1 (s.confirmed (confirmLoop (E.Trim fileEntry.file_name) s.conformation s.cin))).flow := by
      unfold copyEntry
      dsimp only
      rw [if_pos hx, if_neg (by rw [hh]; decide), if_neg hs2]
      rfl
    have hev : (copyEntry E sourceDisk fileEntry targetDisk s).events =
        (confirmLoop (E.Trim fileEntry.file_name) s.conformation s.cin).events ++ [.removeFile .targetDisk (E.Trim fileEntry.file_name)] ++
          (copyOne E sourceDisk fileEntry (E.Trim fileEntry.file_name) (E.removeFile targetDisk (E.Trim fileEntry.file_name)).1 (s.confirmed (confirmLoop (E.Trim fileEntry.file_name) s.conformation s.cin))).events := by
      unfold copyEntry
      dsimp only
      rw [if_pos hx, if_neg (by rw [hh]; decide), if_neg hs2]
      rfl
    have htd : (copyEntry E sourceDisk fileEntry targetDisk s).targetDisk =
        (copyOne E sourceDisk fileEntry (E.Trim fileEntry.file_name) (E.removeFile targetDisk (E.Trim fileEntry.file_name)).1 (s.confirmed (confirmLoop (E.Trim fileEntry.file_name) s.conformation s.cin))).targetDisk := by
      unfold copyEntry
      dsimp only
      rw [if_pos hx, if_neg (by rw [hh]; decide), if_neg hs2]
      rfl
    refine ⟨confirmLoop_events _ _ _, ?_, ?_⟩
    · intro fileData hread
      have h1 := copyOne_events E sourceDisk fileEntry (E.Trim fileEntry.file_name) (E.removeFile targetDisk (E.Trim fileEntry.file_name)).1 (s.confirmed (confirmLoop (E.Trim fileEntry.file_name) s.conformation s.cin)) fileData hread
      refine ⟨hflow.trans h1.1, ?_, htd.trans h1.2.2.2.2⟩
      rw [hev, h1.2.1, ← List.append_assoc]
    · intro hread
      have h1 := copyOne_unread E sourceDisk fileEntry (E.Trim fileEntry.file_name) (E.removeFile targetDisk (E.Trim fileEntry.file_name)).1 (s.confirmed (confirmLoop (E.Trim fileEntry.file_name) s.conformation s.cin)) hread
      have hev2 : (copyEntry E sourceDisk fileEntry targetDisk s).events =
          (confirmLoop (E.Trim fileEntry.file_name) s.conformation s.cin).events ++ [.removeFile .targetDisk (E.Trim fileEntry.file_name)] ++
            (rollOver E fileEntry (E.removeFile targetDisk (E.Trim fileEntry.file_name)).1 (s.confirmed (confirmLoop (E.Trim fileEntry.file_name) s.conformation s.cin))).2.2 ++ [.cerr (.failedToCopy (E.Trim fileEntry.file_name))] := by
        rw [hev, h1.2.1, ← List.append_assoc]
      refine ⟨hflow.trans h1.1, hev2, htd.trans h1.2.2.2.2, ?_, ?_⟩
      · intro o name type data hmem
        rw [hev2, List.append_assoc, List.mem_append] at hmem
        rcases hmem with hm | hm
        · rw [List.mem_append] at hm
          rcases hm with hm | hm
          · have := confirmLoop_events _ _ _ _ hm
            simp at this
          · simp at hm
        · exact rollOver_no_addFile E fileEntry _ _ _ o name type data hm
      · intro rest
        exact copyLoop_stops E sourceDisk fileEntry rest targetDisk s (hflow.trans h1.1)

/-- Witness of C9: the cases on images that lack `A`, hold `A` with the answer
`n`, and hold `A` with the answer `y`, each from a source whose `A` can be read
and, for the first and the last, from one whose `A` cannot. -/
theorem C9_copyEntry_by_policy_witness :
    (copyEntry diskEngine diskA entryA (Disk.blank (str "BACKUP"))
        (St.initial hostRoll [])).flow = .next ∧
    (copyEntry diskEngine diskDamaged entryA (Disk.blank (str "BACKUP"))
        (St.initial hostRoll [])).flow = .returnFalse ∧
    (copyEntry diskEngine diskA entryA diskOldA (St.initial hostRoll [110])).targetDisk =
      diskOldA ∧
    (copyEntry diskEngine diskA entryA diskOldA (St.initial hostRoll [121])).flow = .next ∧
    (copyEntry diskEngine diskDamaged entryA diskOldA (St.initial hostRoll [121])).flow =
      .returnFalse :=
  ⟨(((C9_copyEntry_by_policy diskEngine diskA (Disk.blank (str "BACKUP")) entryA
      (St.initial hostRoll [])).2.1 (by decide)).2.2.2.1 [1, 8] (by decide)).1,
    (((C9_copyEntry_by_policy diskEngine diskDamaged (Disk.blank (str "BACKUP")) entryA
      (St.initial hostRoll [])).2.1 (by decide)).2.2.2.2 (by decide)).1,
    ((C9_copyEntry_by_policy diskEngine diskA diskOldA entryA
      (St.initial hostRoll [110])).2.2.1 (by decide) (by decide) (by decide)).2.2.1,
    (((C9_copyEntry_by_policy diskEngine diskA diskOldA entryA
      (St.initial hostRoll [121])).2.2.2 (by decide) (by decide) (by decide)).2.1 [1, 8]
      (by decide)).1,
    (((C9_copyEntry_by_policy diskEngine diskDamaged diskOldA entryA
      (St.initial hostRoll [121])).2.2.2 (by decide) (by decide) (by decide)).2.2
      (by decide)).1⟩

/-- C9 (counterexample): the source lists `A`, which is not on the target, but
its sector chain cannot be read: `copyFiles` calls no `addFile`; the round
reports the failed copy and returns false, and the backup run ends without
adding the file. -/
theorem C9_unreadable_file_is_not_added :
    fileExists diskEngine (Disk.blank (str "BACKUP")) (diskEngine.Trim entryA.file_name) = false ∧
    (copyEntry diskEngine ⟨str "GAMES", [⟨str "A", 130, 1, false, none⟩], 663⟩ entryA
        (Disk.blank (str "BACKUP")) (St.initial hostDamaged [])).events =
      [.cerr (.failedToCopy (str "A"))] ∧
    (copyEntry diskEngine ⟨str "GAMES", [⟨str "A", 130, 1, false, none⟩], 663⟩ entryA
        (Disk.blank (str "BACKUP")) (St.initial hostDamaged [])).flow = .returnFalse ∧
    (handleBackup diskEngine (str "T.d64") [str "S.d64"] (St.initial hostDamaged [])).2 =
      [.load .target (str "T.d64") true, .rename_disk .target (str "BACKUP"),
        .save .target (str "T.d64"),
        .load .sourceDisk (str "S.d64") true, .load .targetDisk (str "T.d64") true,
        .cerr (.failedToCopy (str "A")), .cerr .backupFailed] := by
  decide

/-! ## The target of `handleBackup` -/

theorem backupBase_eq_specBase (diskfile : Str) : backupBase diskfile = specBase diskfile := by
  unfold backupBase specBase ends_with substr2
  have h4 : (str ".d64").length = 4 := by decide
  have h4b : (str ".D64").length = 4 := by decide
  rw [h4, h4b]
  by_cases hl : 4 ≤ diskfile.length
  · have hn : ¬ ((diskfile.length : Int) - 4 < 0) := by omega
    have ht : ((diskfile.length : Int) - 4).toNat = diskfile.length - 4 := by omega
    simp only [hl, decide_True, Bool.true_and, hn, if_false, List.drop_zero, ht]
  · have hd : diskfile.length - 4 = 0 := by omega
    have hne : (diskfile == str ".d64") = false := by
      rw [beq_eq_false_iff_ne]; intro h
      rw [h] at hl; exact hl (by decide)
    have hne2 : (diskfile == str ".D64") = false := by
      rw [beq_eq_false_iff_ne]; intro h
      rw [h] at hl; exact hl (by decide)
    simp [hl, hd, hne, hne2]

theorem backupBase_append (b : Str) :
    backupBase (b ++ str ".d64") = b ∧ backupBase (b ++ str ".D64") = b := by
  rw [backupBase_eq_specBase, backupBase_eq_specBase]
  unfold specBase
  have h4 : (str ".d64").length = 4 := by decide
  have h4b : (str ".D64").length = 4 := by decide
  constructor
  · have hl : (b ++ str ".d64").length - 4 = b.length := by
      rw [List.length_append, h4]; omega
    rw [hl]
    simp
  · have hl : (b ++ str ".D64").length - 4 = b.length := by
      rw [List.length_append, h4b]; omega
    rw [hl]
    simp

/-- C10: for every target path and every list of sources, `handleBackup` first
issues, on its target image, `load` of `<base>.d64`, then `formatDisk("NEW DISK")`
exactly when the load failed, then `rename_disk("BACKUP")` and `save` as
`<base>.d64`, and only then processes the sources; the image it holds is the
loaded or freshly formatted image after `rename_disk("BACKUP")`, and the host
files the first source sees are those after the save of that image; `<base>` is
the path with one trailing `.d64` or `.D64` removed. -/
theorem C10_handleBackup_prepares_target (E : Engine D W) (diskfile : Str) (disks : List Str)
    (s : St W) :
    backupBase diskfile = specBase diskfile ∧
    (∀ b : Str, backupBase (b ++ str ".d64") = b ∧ backupBase (b ++ str ".D64") = b) ∧
    (backupPrepare E diskfile s).target_name = specBase diskfile ++ str ".d64" ∧
    (backupPrepare E diskfile s).events =
      [.load .target (specBase diskfile ++ str ".d64")
          (E.load E.init s.world (specBase diskfile ++ str ".d64")).2] ++
        (if (E.load E.init s.world (specBase diskfile ++ str ".d64")).2 then []
          else [.formatDisk .target (some (str "NEW DISK"))]) ++
        [.rename_disk .target (str "BACKUP"), .save .target (specBase diskfile ++ str ".d64")] ∧
    (backupPrepare E diskfile s).target =
      (E.rename_disk
        (if (E.load E.init s.world (specBase diskfile ++ str ".d64")).2
          then (E.load E.init s.world (specBase diskfile ++ str ".d64")).1
          else E.formatDisk (E.load E.init s.world (specBase diskfile ++ str ".d64")).1
            (some (str "NEW DISK")))
        (str "BACKUP")).1 ∧
    (backupPrepare E diskfile s).st.world =
      (E.save (backupPrepare E diskfile s).target s.world (specBase diskfile ++ str ".d64")).1 ∧
    (backupPrepare E diskfile s).st.target_backup_base_name = specBase diskfile ∧
    (handleBackup E diskfile disks s).2 =
      (backupPrepare E diskfile s).events ++
        (backupLoop E (specBase diskfile ++ str ".d64") disks (backupPrepare E diskfile s).st).2 ∧
    (handleBackup E diskfile disks s).1 =
      (backupLoop E (specBase diskfile ++ str ".d64") disks (backupPrepare E diskfile s).st).1 := by
  have hb := backupBase_eq_specBase diskfile
  refine ⟨hb, backupBase_append, ?_, ?_, ?_, ?_, ?_, ?_, ?_⟩
  · rw [← hb]; rfl
  · rw [← hb]
    unfold backupPrepare
    dsimp only
    cases (E.load E.init s.world (backupBase diskfile ++ str ".d64")).2 <;> rfl
  · rw [← hb]
    unfold backupPrepare
    dsimp only
    cases (E.load E.init s.world (backupBase diskfile ++ str ".d64")).2 <;> rfl
  · rw [← hb]; rfl
  · rw [← hb]; rfl
  · rw [← hb]; rfl
  · rw [← hb]; rfl

/-! ## Which handlers write the image file -/

theorem handleReorder_used (E : Engine D W) (P : Program) (h : P.is_used (str "--orderfile") = some true)
    (depth : Nat) : ∀ (diskfile : Str) (order : List Str) (s : St W),
    (handleReorder E P depth diskfile order s).events = [] ∧
    (handleReorder E P depth diskfile order s).status ≠ .returned ∧
    (handleReorder E P depth diskfile order s).st = s := by
  induction depth with
  | zero => intro diskfile order s; simp [handleReorder]
  | succ depth ih =>
    intro diskfile order s
    unfold handleReorder
    simp only [h]
    cases hg : P.get (str "--orderfile") with
    | none => simp
    | some orderfile =>
      cases hd : P.get (str "diskfile") with
      | none => simp
      | some inner =>
        have hi := ih inner (getlines (E.ifstream s.world orderfile)) s
        dsimp only
        split
        · rename_i hr; exact absurd hr hi.2.1
        · exact hi

theorem saves_reorderDisk (E : Engine D W) (diskfile : Str) (order : List Str) (s : St W) :
    saves (reorderDisk E diskfile order s).2 =
      (if (E.load E.init s.world diskfile).2 &&
          (E.reorderDirectory (E.load E.init s.world diskfile).1 order).2
        then [(Obj.disk, diskfile)] else []) ∧
    (reorderDisk E diskfile order s).1.world =
      (if (E.load E.init s.world diskfile).2 &&
          (E.reorderDirectory (E.load E.init s.world diskfile).1 order).2
        then (E.save (E.reorderDirectory (E.load E.init s.world diskfile).1 order).1 s.world
          diskfile).1
        else s.world) := by
  unfold reorderDisk saves
  dsimp only
  split_ifs <;> simp_all

/-- C11: each single-disk handler calls `disk.save` exactly when the disk loaded
and its engine operation returned success, and then once, on the disk file; the
host files are those after that save, and are left as they were otherwise.  This
holds for add (the operation being `addFile`, reached when the host file opens
and the name is not `.REL`), addrel, remove, rename, lock, unlock, compact,
rename-disk and reorder (which reaches the disk only when `--orderfile` is not
in use); list, bam, dump, load and extract never call `save`. -/
theorem C11_save_exactly_on_success (E : Engine D W) (P : Program) (depth : Nat)
    (diskfile filename newname : Str) (order : List Str) (recordsize track sector : Int)
    (s : St W) :
    saves (handleAdd E diskfile filename s).2 =
      (match E.ifstream s.world filename, addFileType (scanName filename).name with
        | some fileData, some (filetype, _) =>
          if (E.load E.init s.world diskfile).2 && (E.addFile (E.load E.init s.world diskfile).1 (engineName filename) filetype fileData).2
          then [(Obj.disk, diskfile)] else []
        | _, _ => []) ∧
    (handleAdd E diskfile filename s).1.world =
      (match E.ifstream s.world filename, addFileType (scanName filename).name with
        | some fileData, some (filetype, _) =>
          if (E.load E.init s.world diskfile).2 && (E.addFile (E.load E.init s.world diskfile).1 (engineName filename) filetype fileData).2
          then (E.save (E.addFile (E.load E.init s.world diskfile).1 (engineName filename) filetype fileData).1 s.world
            diskfile).1
          else s.world
        | _, _ => s.world) ∧
    saves (handleAddRel E diskfile filename recordsize s).2 =
      (match E.ifstream s.world filename with
        | some fileData =>
          if (E.load E.init s.world diskfile).2 &&
            (E.addRelFile (E.load E.init s.world diskfile).1 (engineName filename) FileTypes.REL recordsize fileData).2
          then [(Obj.disk, diskfile)] else []
        | none => []) ∧
    (handleAddRel E diskfile filename recordsize s).1.world =
      (match E.ifstream s.world filename with
        | some fileData =>
          if (E.load E.init s.world diskfile).2 &&
            (E.addRelFile (E.load E.init s.world diskfile).1 (engineName filename) FileTypes.REL recordsize fileData).2
          then (E.save (E.addRelFile (E.load E.init s.world diskfile).1 (engineName filename) FileTypes.REL recordsize
            fileData).1 s.world diskfile).1
          else s.world
        | none => s.world) ∧
    saves (handleRemove E diskfile filename s).2 =
      (if (E.load E.init s.world diskfile).2 && (E.removeFile (E.load E.init s.world diskfile).1 filename).2 then [(Obj.disk, diskfile)] else []) ∧
    (handleRemove E diskfile filename s).1.world =
      (if (E.load E.init s.world diskfile).2 && (E.removeFile (E.load E.init s.world diskfile).1 filename).2 then (E.save (E.removeFile (E.load E.init s.world diskfile).1 filename).1 s.world diskfile).1 else s.world) ∧
    saves (handleRename E diskfile filename newname s).2 =
      (if (E.load E.init s.world diskfile).2 && (E.renameFile (E.load E.init s.world diskfile).1 filename newname).2 then [(Obj.disk, diskfile)] else []) ∧
    (handleRename E diskfile filename newname s).1.world =
      (if (E.load E.init s.world diskfile).2 && (E.renameFile (E.load E.init s.world diskfile).1 filename newname).2 then (E.save (E.renameFile (E.load E.init s.world diskfile).1 filename newname).1 s.world diskfile).1 else s.world) ∧
    saves (handleLock E diskfile filename s).2 =
      (if (E.load E.init s.world diskfile).2 && (E.lockfile (E.load E.init s.world diskfile).1 filename true).2 then [(Obj.disk, diskfile)] else []) ∧
    (handleLock E diskfile filename s).1.world =
      (if (E.load E.init s.world diskfile).2 && (E.lockfile (E.load E.init s.world diskfile).1 filename true).2 then (E.save (E.lockfile (E.load E.init s.world diskfile).1 filename true).1 s.world diskfile).1 else s.world) ∧
    saves (handleUnlock E diskfile filename s).2 =
      (if (E.load E.init s.world diskfile).2 && (E.lockfile (E.load E.init s.world diskfile).1 filename true).2 then [(Obj.disk, diskfile)] else []) ∧
    (handleUnlock E diskfile filename s).1.world =
      (if (E.load E.init s.world diskfile).2 && (E.lockfile (E.load E.init s.world diskfile).1 filename true).2 then (E.save (E.lockfile (E.load E.init s.world diskfile).1 filename true).1 s.world diskfile).1 else s.world) ∧
    saves (handleCompact E diskfile s).2 =
      (if (E.load E.init s.world diskfile).2 && (E.compactDirectory (E.load E.init s.world diskfile).1).2 then [(Obj.disk, diskfile)] else []) ∧
    (handleCompact E diskfile s).1.world =
      (if (E.load E.init s.world diskfile).2 && (E.compactDirectory (E.load E.init s.world diskfile).1).2 then (E.save (E.compactDirectory (E.load E.init s.world diskfile).1).1 s.world diskfile).1 else s.world) ∧
    saves (handleDiskRename E diskfile newname s).2 =
      (if (E.load E.init s.world diskfile).2 && (E.rename_disk (E.load E.init s.world diskfile).1 newname).2 then [(Obj.disk, diskfile)] else []) ∧
    (handleDiskRename E diskfile newname s).1.world =
      (if (E.load E.init s.world diskfile).2 && (E.rename_disk (E.load E.init s.world diskfile).1 newname).2 then (E.save (E.rename_disk (E.load E.init s.world diskfile).1 newname).1 s.world diskfile).1 else s.world) ∧
    saves (handleReorder E P (depth + 1) diskfile order s).events =
      (if P.is_used (str "--orderfile") = some false ∧ (E.load E.init s.world diskfile).2 = true ∧ (E.reorderDirectory (E.load E.init s.world diskfile).1 order).2 = true
        then [(Obj.disk, diskfile)] else []) ∧
    (handleReorder E P (depth + 1) diskfile order s).st.world =
      (if P.is_used (str "--orderfile") = some false ∧ (E.load E.init s.world diskfile).2 = true ∧ (E.reorderDirectory (E.load E.init s.world diskfile).1 order).2 = true
        then (E.save (E.reorderDirectory (E.load E.init s.world diskfile).1 order).1 s.world diskfile).1 else s.world) ∧
    saves (handleReorder E P 0 diskfile order s).events = [] ∧
    saves (handleList E diskfile s).2 = [] ∧
    (handleList E diskfile s).1.world = s.world ∧
    saves (handleBAM E diskfile s).2 = [] ∧
    (handleBAM E diskfile s).1.world = s.world ∧
    saves (handleDumpSector E diskfile track sector s).2 = [] ∧
    (handleDumpSector E diskfile track sector s).1.world = s.world ∧
    saves (handleLoad E diskfile s).2 = [] ∧
    (handleLoad E diskfile s).1.world = s.world ∧
    saves (handleExtract E diskfile filename s).2 = [] := by
  have hre := saves_reorderDisk E diskfile order s
  refine ⟨?_, ?_, ?_, ?_, ?_, ?_, ?_, ?_, ?_, ?_, ?_, ?_, ?_, ?_, ?_, ?_, ?_, ?_, ?_, ?_, ?_, ?_,
    ?_, ?_, ?_, ?_, ?_, ?_⟩
  · unfold handleAdd saves
    dsimp only
    rcases E.ifstream s.world filename with _ | fileData <;>
      rcases addFileType (scanName filename).name with _ | ⟨filetype, _ | _⟩ <;>
      by_cases hl : (E.load E.init s.world diskfile).2 = true <;>
      simp only [hl, if_true, if_false, Bool.false_eq_true] <;>
      (try split_ifs) <;> simp_all [engineName]
  · unfold handleAdd
    dsimp only
    rcases E.ifstream s.world filename with _ | fileData <;>
      rcases addFileType (scanName filename).name with _ | ⟨filetype, _ | _⟩ <;>
      by_cases hl : (E.load E.init s.world diskfile).2 = true <;>
      simp only [hl, if_true, if_false, Bool.false_eq_true] <;>
      (try split_ifs) <;> simp_all [engineName]
  · unfold handleAddRel saves
    dsimp only
    rcases E.ifstream s.world filename with _ | fileData <;>
      by_cases hl : (E.load E.init s.world diskfile).2 = true <;>
      simp only [hl, if_true, if_false, Bool.false_eq_true] <;>
      (try split_ifs) <;> simp_all [engineName]
  · unfold handleAddRel
    dsimp only
    rcases E.ifstream s.world filename with _ | fileData <;>
      by_cases hl : (E.load E.init s.world diskfile).2 = true <;>
      simp only [hl, if_true, if_false, Bool.false_eq_true] <;>
      (try split_ifs) <;> simp_all [engineName]
  · unfold handleRemove saves; dsimp only; split_ifs <;> simp_all
  · unfold handleRemove; dsimp only; split_ifs <;> simp_all
  · unfold handleRename saves; dsimp only; split_ifs <;> simp_all
  · unfold handleRename; dsimp only; split_ifs <;> simp_all
  · unfold handleLock saves; dsimp only; split_ifs <;> simp_all
  · unfold handleLock; dsimp only; split_ifs <;> simp_all
  · unfold handleUnlock saves; dsimp only; split_ifs <;> simp_all
  · unfold handleUnlock; dsimp only; split_ifs <;> simp_all
  · unfold handleCompact saves; dsimp only; split_ifs <;> simp_all
  · unfold handleCompact; dsimp only; split_ifs <;> simp_all
  · unfold handleDiskRename saves; dsimp only; split_ifs <;> simp_all
  · unfold handleDiskRename; dsimp only; split_ifs <;> simp_all
  · cases hu : P.is_used (str "--orderfile") with
    | none => simp [handleReorder, hu, saves]
    | some b =>
      cases b with
      | true => simp [(handleReorder_used E P hu (depth + 1) diskfile order s).1, saves]
      | false =>
        unfold handleReorder
        simp only [hu]
        rw [hre.1]
        simp
  · cases hu : P.is_used (str "--orderfile") with
    | none => simp [handleReorder, hu]
    | some b =>
      cases b with
      | true => simp [(handleReorder_used E P hu (depth + 1) diskfile order s).2.2]
      | false =>
        unfold handleReorder
        simp only [hu]
        rw [hre.2]
        simp
  · simp [handleReorder, saves]
  · unfold handleList saves; dsimp only; split_ifs <;> simp_all
  · unfold handleList; dsimp only; split_ifs <;> simp_all
  · unfold handleBAM saves; dsimp only; split_ifs <;> simp_all
  · unfold handleBAM; dsimp only; split_ifs <;> simp_all
  · unfold handleDumpSector saves; dsimp only; split_ifs <;> (try split) <;> simp_all
  · unfold handleDumpSector; dsimp only; split_ifs <;> (try split) <;> simp_all
  · unfold handleLoad saves; dsimp only; split_ifs <;> simp_all
  · unfold handleLoad; dsimp only; split_ifs <;> simp_all
  · unfold handleExtract saves; dsimp only; split_ifs <;> simp_all

/-- C12: `handleVerify` with `fix = false` never calls `save` and leaves the host
files as they were, whatever `verifyBAMIntegrity` returns; for an image that
loads, `save` is called (once, on the disk file) exactly when `fix` is true,
whatever the verification returned, and the host files are then those after
that save. -/
theorem C12_handleVerify_saves_iff_fix (E : Engine D W) (diskfile : Str) (fix : Bool)
    (s : St W) :
    saves (handleVerify E diskfile false s).2 = [] ∧
    (handleVerify E diskfile false s).1.world = s.world ∧
    saves (handleVerify E diskfile fix s).2 =
      (if (E.load E.init s.world diskfile).2 && fix then [(Obj.disk, diskfile)] else []) ∧
    (handleVerify E diskfile fix s).1.world =
      (if (E.load E.init s.world diskfile).2 && fix then
        (E.save (E.verifyBAMIntegrity (E.load E.init s.world diskfile).1 fix []).1 s.world
          diskfile).1
      else s.world) := by
  refine ⟨?_, ?_, ?_, ?_⟩
  · unfold handleVerify saves; dsimp only; split_ifs <;> simp_all
  · unfold handleVerify; dsimp only; split_ifs <;> simp_all
  · unfold handleVerify saves; dsimp only; split_ifs <;> simp_all
  · unfold handleVerify; dsimp only; split_ifs <;> simp_all

/-! ## The overwrite policy of a backup run -/

theorem asks_append (a b : List Event) : asks (a ++ b) = asks a ++ asks b := by
  simp [asks]

theorem confirmLoop_all (filename : Str) (c : ComformationType) (cin : List Nat)
    (h : c = .overwrite_all ∨ c = .skip_all) :
    confirmLoop filename c cin = ⟨c, cin, false, []⟩ := by
  cases cin with
  | nil => unfold confirmLoop; rcases h with h | h <;> simp [h]
  | cons r rest => unfold confirmLoop; rcases h with h | h <;> simp [h]

theorem rollOver_keeps (E : Engine D W) (e : DirEntry) (t : D) (s : St W) :
    (rollOver E e t s).2.1.conformation = s.conformation ∧
    (rollOver E e t s).2.1.cin = s.cin ∧
    (rollOver E e t s).2.1.hung = s.hung ∧
    asks (rollOver E e t s).2.2 = [] := by
  unfold rollOver
  split_ifs <;> simp [asks]

theorem copyOne_keeps (E : Engine D W) (src : D) (e : DirEntry) (filename : Str) (t : D)
    (s : St W) :
    (copyOne E src e filename t s).st.conformation = s.conformation ∧
    (copyOne E src e filename t s).st.cin = s.cin ∧
    (copyOne E src e filename t s).st.hung = s.hung ∧
    asks (copyOne E src e filename t s).events = [] ∧
    (copyOne E src e filename t s).flow ≠ .hung := by
  have h := rollOver_keeps E e t s
  unfold copyOne
  dsimp only
  split <;> simp [asks_append, h] <;> simp [asks]

theorem copyEntry_all (E : Engine D W) (src : D) (e : DirEntry) (t : D) (s : St W)
    (h : s.conformation = .overwrite_all ∨ s.conformation = .skip_all) :
    (copyEntry E src e t s).st.conformation = s.conformation ∧
    (copyEntry E src e t s).st.cin = s.cin ∧
    asks (copyEntry E src e t s).events = [] ∧
    (copyEntry E src e t s).flow ≠ .hung := by
  unfold copyEntry
  dsimp only
  rw [confirmLoop_all _ _ _ h]
  simp only [Bool.false_eq_true, if_false]
  split_ifs with hx hs
  · simp [asks]
  · have k := copyOne_keeps E src e (E.Trim e.file_name) (E.removeFile t (E.Trim e.file_name)).1
      { s with conformation := s.conformation, cin := s.cin, hung := false }
    refine ⟨k.1, k.2.1, ?_, k.2.2.2.2⟩
    simp only [asks_append, k.2.2.2.1]
    simp [asks]
  · have k := copyOne_keeps E src e (E.Trim e.file_name) t s
    exact ⟨k.1, k.2.1, k.2.2.2.1, k.2.2.2.2⟩

theorem copyLoop_all (E : Engine D W) (src : D) (es : List DirEntry) : ∀ (t : D) (s : St W),
    (s.conformation = .overwrite_all ∨ s.conformation = .skip_all) →
    (copyLoop E src es t s).st.conformation = s.conformation ∧
    (copyLoop E src es t s).st.cin = s.cin ∧
    asks (copyLoop E src es t s).events = [] ∧
    (copyLoop E src es t s).flow ≠ .hung := by
  induction es with
  | nil => intro t s _; simp [copyLoop, asks]
  | cons e es ih =>
    intro t s h
    have h1 := copyEntry_all E src e t s h
    unfold copyLoop
    dsimp only
    split
    · have h2 := ih (copyEntry E src e t s).targetDisk (copyEntry E src e t s).st (by rw [h1.1]; exact h)
      refine ⟨h2.1.trans h1.1, h2.2.1.trans h1.2.1, ?_, h2.2.2.2⟩
      simp [asks_append, h1.2.2.1, h2.2.2.1]
    · exact h1

theorem loadDisks_asks (E : Engine D W) (source target : Str) (s : St W) :
    asks (loadDisks E source target s).events = [] := by
  unfold loadDisks; dsimp only; split_ifs <;> simp [asks]

theorem Backup_all (E : Engine D W) (source target : Str) (s : St W)
    (h : s.conformation = .overwrite_all ∨ s.conformation = .skip_all) :
    (Backup E source target s).1.conformation = s.conformation ∧
    (Backup E source target s).1.cin = s.cin ∧
    asks (Backup E source target s).2 = [] := by
  have hc := copyLoop_all E (loadDisks E source target s).sourceDisk
    (E.directory (loadDisks E source target s).sourceDisk)
    (loadDisks E source target s).targetDisk s h
  have hl := loadDisks_asks E source target s
  unfold Backup
  dsimp only
  split_ifs with hok
  · exact ⟨rfl, rfl, hl⟩
  · unfold copyFiles
    split
    · rename_i hf; exact absurd hf hc.2.2.2
    · refine ⟨hc.1, hc.2.1, ?_⟩
      simp only [asks_append, hl, hc.2.2.1]
      simp [asks]
    · refine ⟨hc.1, hc.2.1, ?_⟩
      simp only [asks_append, hl, hc.2.2.1]
      simp [asks]

theorem backupLoop_all (E : Engine D W) (target : Str) (disks : List Str) : ∀ (s : St W),
    (s.conformation = .overwrite_all ∨ s.conformation = .skip_all) →
    (backupLoop E target disks s).1.conformation = s.conformation ∧
    (backupLoop E target disks s).1.cin = s.cin ∧
    asks (backupLoop E target disks s).2 = [] := by
  induction disks with
  | nil => intro s _; simp [backupLoop, asks]
  | cons src rest ih =>
    intro s h
    have hb := Backup_all E src target s h
    unfold backupLoop
    dsimp only
    split_ifs with hh
    · exact hb
    · have hi := ih (Backup E src target s).1 (by rw [hb.1]; exact h)
      refine ⟨hi.1.trans hb.1, hi.2.1.trans hb.2.1, ?_⟩
      simp only [asks_append, hb.2.2, hi.2.2]
      simp

/-- C14: once the policy is `overwrite_all` or `skip_all`, every further round
of `copyFiles` on the remaining entries and every further `Backup` of the
remaining sources of the run keeps that policy, issues no prompt and reads
nothing from the console; and `handleBackup` starts every run with the policy
`skip_file`, whatever it was before. -/
theorem C14_all_policies_are_sticky (E : Engine D W) (s : St W)
    (h : s.conformation = .overwrite_all ∨ s.conformation = .skip_all) :
    (∀ (sourceDisk targetDisk : D) (entries : List DirEntry),
      (copyLoop E sourceDisk entries targetDisk s).st.conformation = s.conformation ∧
      (copyLoop E sourceDisk entries targetDisk s).st.cin = s.cin ∧
      asks (copyLoop E sourceDisk entries targetDisk s).events = []) ∧
    (∀ (target : Str) (disks : List Str),
      (backupLoop E target disks s).1.conformation = s.conformation ∧
      (backupLoop E target disks s).1.cin = s.cin ∧
      asks (backupLoop E target disks s).2 = []) ∧
    (∀ (diskfile : Str), (backupPrepare E diskfile s).st.conformation = .skip_file) := by
  refine ⟨?_, ?_, fun _ => rfl⟩
  · intro src t es
    have k := copyLoop_all E src es t s h
    exact ⟨k.1, k.2.1, k.2.2.1⟩
  · intro target disks
    exact backupLoop_all E target disks s h

/-- Witness of C14: two sources that both hold `A` are backed up onto a target
that holds `A`, the policy being `skip_all`: no prompt, and the answer waiting on
the console is not read. -/
theorem C14_all_policies_are_sticky_witness :
    asks (backupLoop diskEngine (str "T.d64") [str "S.d64", str "S2.d64"]
      { St.initial hostTwice [121] with conformation := .skip_all }).2 = [] ∧
    (backupLoop diskEngine (str "T.d64") [str "S.d64", str "S2.d64"]
      { St.initial hostTwice [121] with conformation := .skip_all }).1.cin = [121] :=
  have k := (C14_all_policies_are_sticky diskEngine
    { St.initial hostTwice [121] with conformation := .skip_all } (Or.inr rfl)).2.1
    (str "T.d64") [str "S.d64", str "S2.d64"]
  ⟨k.2.2, k.2.1⟩

/-! ## The recursion of `handleReorder` -/

/-- C17: `handleReorder` issues an engine call only when
`program.is_used("--orderfile")` returns false.  When it returns true, no call
depth is enough for the handler to return or to issue any call; and when the
two `program.get` calls return as well, the handler is, at every depth, still
inside a nested invocation that runs under the same parser state. -/
theorem C17_handleReorder_recursion (E : Engine D W) (P : Program) (depth : Nat)
    (diskfile : Str) (order : List Str) (s : St W) :
    ((handleReorder E P depth diskfile order s).events.any Event.isCall = true →
      P.is_used (str "--orderfile") = some false) ∧
    (P.is_used (str "--orderfile") = some true →
      (handleReorder E P depth diskfile order s).events = [] ∧
      (handleReorder E P depth diskfile order s).status ≠ .returned ∧
      (handleReorder E P depth diskfile order s).st = s) ∧
    (P.is_used (str "--orderfile") = some true →
      ∀ orderfile inner, P.get (str "--orderfile") = some orderfile →
        P.get (str "diskfile") = some inner →
        (handleReorder E P depth diskfile order s).status = .running ∧
        handleReorder E P (depth + 1) diskfile order s =
          handleReorder E P depth inner (getlines (E.ifstream s.world orderfile)) s) := by
  refine ⟨?_, fun hu => handleReorder_used E P hu depth diskfile order s, ?_⟩
  · intro hc
    cases hu : P.is_used (str "--orderfile") with
    | none =>
      cases depth <;> simp [handleReorder, hu] at hc
    | some b =>
      cases b with
      | false => rfl
      | true =>
        rw [(handleReorder_used E P hu depth diskfile order s).1] at hc
        simp at hc
  · intro hu orderfile inner hg hd
    have hstep : ∀ (n : Nat) (d : Str) (o : List Str),
        handleReorder E P (n + 1) d o s =
          handleReorder E P n inner (getlines (E.ifstream s.world orderfile)) s := by
      intro n d o
      have hi := (handleReorder_used E P hu n inner (getlines (E.ifstream s.world orderfile)) s).2.1
      conv_lhs => unfold handleReorder
      simp only [hu, hg, hd]
    refine ⟨?_, hstep depth diskfile order⟩
    have hrun : ∀ (n : Nat) (d : Str) (o : List Str),
        (handleReorder E P n d o s).status = .running := by
      intro n
      induction n with
      | zero => intro d o; simp [handleReorder]
      | succ n ih => intro d o; rw [hstep n d o]; exact ih _ _
    exact hrun depth diskfile order

/-- Witness of C17: a parser state with `--orderfile` in use; at depth 5 the
handler is still running and has issued no call. -/
theorem C17_handleReorder_recursion_witness :
    (handleReorder diskEngine programWithOrderfile 5 (str "d.d64") []
      (St.initial (hostWith []) [])).events = [] ∧
    (handleReorder diskEngine programWithOrderfile 5 (str "d.d64") []
      (St.initial (hostWith []) [])).status = .running :=
  have k := C17_handleReorder_recursion diskEngine programWithOrderfile 5 (str "d.d64") []
    (St.initial (hostWith []) [])
  ⟨(k.2.1 (by decide)).1, (k.2.2 (by decide) (str "order.txt") (str "d.d64") (by decide)
    (by decide)).1⟩

/-! ## `executeCommand` -/

theorem normalize_cases (diskname : Str) (params : List Str) :
    normalize diskname params =
      (match params with
        | [] => [diskname]
        | p :: rest => if ends_with p (str ".d64") then p :: rest else diskname :: p :: rest) := by
  unfold normalize
  cases params with
  | nil => simp
  | cons p rest =>
    by_cases h : ends_with p (str ".d64") = true <;> simp [h]

theorem normalize_length (diskname : Str) (params : List Str) :
    1 ≤ (normalize diskname params).length := by
  rw [normalize_cases]
  cases params with
  | nil => simp
  | cons p rest => dsimp only; split_ifs <;> simp

theorem dispatch_call (command : Str) (ps : List Str) (c : Call)
    (h : dispatch command ps = .call c) :
    ps.take c.strings.length = c.strings ∧ (c.disk = none ∨ c.disk = ps.head?) := by
  unfold dispatch at h
  cases hl : functionTable.lookup command with
  | none => simp [hl] at h
  | some entry =>
    simp only [hl] at h
    rcases entry with ⟨ty, f⟩
    cases ty <;> rcases ps with _ | ⟨a, _ | ⟨b, _ | ⟨c3, rest⟩⟩⟩ <;>
      simp [withParam] at h <;>
      (try split at h) <;> (try split at h) <;> (try split at h) <;>
      (try simp at h) <;> (try subst h) <;> simp [Call.strings, Call.disk]

/-- C15: `executeCommand` leaves the parameter list as it is when its first
element ends with `.d64` and otherwise puts the current disk name in front of
it, the parameters of the user keeping their order and content; every handler
it calls gets as its string arguments the first elements of that list, in
order, so its disk argument is the head of the list. -/
theorem C15_disk_argument_of_the_handler (diskname command : Str) (params : List Str) :
    normalize diskname params =
      (match params with
        | [] => [diskname]
        | p :: rest => if ends_with p (str ".d64") then p :: rest else diskname :: p :: rest) ∧
    (normalize diskname params = params ∨ normalize diskname params = diskname :: params) ∧
    (∀ c, dispatch command (normalize diskname params) = .call c →
      (normalize diskname params).take c.strings.length = c.strings ∧
      (c.disk = none ∨ c.disk = (normalize diskname params).head?)) := by
  refine ⟨normalize_cases diskname params, ?_, fun c h => dispatch_call command _ c h⟩
  unfold normalize
  split_ifs
  · exact Or.inr rfl
  · exact Or.inl rfl

/-- Witness of C15: `add game.prg` with the current disk `d.d64`, and
`add e.d64 game.prg`. -/
theorem C15_disk_argument_of_the_handler_witness :
    (Call.f2 .handleAdd (str "d.d64") (str "game.prg")).disk =
      (normalize (str "d.d64") [str "game.prg"]).head? ∧
    (Call.f2 .handleAdd (str "e.d64") (str "game.prg")).disk =
      (normalize (str "d.d64") [str "e.d64", str "game.prg"]).head? :=
  ⟨((C15_disk_argument_of_the_handler (str "d.d64") (str "add") [str "game.prg"]).2.2
      (.f2 .handleAdd (str "d.d64") (str "game.prg")) (by decide)).2.resolve_left (by decide),
    ((C15_disk_argument_of_the_handler (str "d.d64") (str "add")
      [str "e.d64", str "game.prg"]).2.2
      (.f2 .handleAdd (str "e.d64") (str "game.prg")) (by decide)).2.resolve_left (by decide)⟩

theorem dispatch_by_arity (command : Str) (ps : List Str) (hlen : 1 ≤ ps.length) :
    (dispatch command ps == .outOfRange) = false ∧
    (functionTable.lookup command = none → dispatch command ps = .unknown) ∧
    (∀ e, functionTable.lookup command = some e →
      (ps.length < arity e.type → dispatch command ps = .missing) ∧
      (arity e.type ≤ ps.length → e.type ≠ .two_int →
        ∃ c, dispatch command ps = .call c ∧ c.handler = e.f) ∧
      (arity e.type ≤ ps.length → e.type = .two_int →
        match stoi (ps.getD 1 []), stoi (ps.getD 2 []) with
        | some track, some sector =>
          dispatch command ps = .call (.fi e.f (ps.getD 0 []) track sector)
        | _, _ => dispatch command ps = .thrown)) := by
  unfold dispatch
  cases hl : functionTable.lookup command with
  | none => simp
  | some entry =>
    rcases entry with ⟨ty, f⟩
    refine ⟨?_, by simp, ?_⟩
    · cases ty <;> rcases ps with _ | ⟨a, _ | ⟨b, _ | ⟨c3, rest⟩⟩⟩ <;>
        simp_arith [withParam] at hlen ⊢
      all_goals
        first
          | omega
          | (cases stoi b <;> cases stoi c3 <;> simp)
    · intro e he
      simp only [Option.some.injEq] at he
      subst he
      cases ty <;> rcases ps with _ | ⟨a, _ | ⟨b, _ | ⟨c3, rest⟩⟩⟩ <;>
        simp_arith [withParam, arity, Call.handler] at hlen ⊢
      all_goals
        first
          | omega
          | (cases stoi b <;> cases stoi c3 <;> simp)

/-- C16 (as amended): after the disk-name normalisation the list has at least
one element and `executeCommand` never reads it out of range; an unknown command
calls no handler; for a known command with fewer elements than the arity of its
type only the missing-parameters error results; with enough elements the handler
of the table entry is called for every type but `two_int`, and for `two_int` it is
called exactly when `std::stoi` converts the second and the third element -
otherwise `std::stoi` throws, no handler is called and no error is reported by
`executeCommand`. -/
theorem C16_handler_called_by_arity (diskname command : Str) (params : List Str) :
    1 ≤ (normalize diskname params).length ∧
    (dispatch command (normalize diskname params) == .outOfRange) = false ∧
    (functionTable.lookup command = none →
      dispatch command (normalize diskname params) = .unknown) ∧
    (∀ e, functionTable.lookup command = some e →
      ((normalize diskname params).length < arity e.type →
        dispatch command (normalize diskname params) = .missing) ∧
      (arity e.type ≤ (normalize diskname params).length → e.type ≠ .two_int →
        ∃ c, dispatch command (normalize diskname params) = .call c ∧ c.handler = e.f) ∧
      (arity e.type ≤ (normalize diskname params).length → e.type = .two_int →
        match stoi ((normalize diskname params).getD 1 []),
            stoi ((normalize diskname params).getD 2 []) with
        | some track, some sector =>
          dispatch command (normalize diskname params) =
            .call (.fi e.f ((normalize diskname params).getD 0 []) track sector)
        | _, _ => dispatch command (normalize diskname params) = .thrown)) :=
  ⟨normalize_length diskname params,
    dispatch_by_arity command _ (normalize_length diskname params)⟩

/-- Witness of C16: `list` without a parameter and with a current disk calls
`handleList`; `add` with the disk alone reports missing parameters; `dump` with
two numbers calls `handleDumpSector`. -/
theorem C16_handler_called_by_arity_witness :
    (∃ c, dispatch (str "list") (normalize (str "d.d64") []) = .call c ∧
      c.handler = .handleList) ∧
    dispatch (str "add") (normalize (str "d.d64") []) = .missing ∧
    dispatch (str "dump") (normalize (str "d.d64") [str "18", str "0"]) =
      .call (.fi .handleDumpSector (str "d.d64") 18 0) :=
  ⟨((C16_handler_called_by_arity (str "d.d64") (str "list") []).2.2.2
      ⟨.one_param, .handleList⟩ (by decide)).2.1 (by decide) (by decide),
    ((C16_handler_called_by_arity (str "d.d64") (str "add") []).2.2.2
      ⟨.two_param, .handleAdd⟩ (by decide)).1 (by decide),
    ((C16_handler_called_by_arity (str "d.d64") (str "dump") [str "18", str "0"]).2.2.2
      ⟨.two_int, .handleDumpSector⟩ (by decide)).2.2 (by decide) (by decide)⟩

/-- C16 (counterexample): `dump d.d64 x y` has three elements, the arity of
`two_int`, but `std::stoi("x")` throws: no handler is called, and the
missing-parameters error is not reported either. -/
theorem C16_dump_with_words_calls_no_handler :
    functionTable.lookup (str "dump") = some ⟨.two_int, .handleDumpSector⟩ ∧
    decide (arity .two_int ≤ (normalize (str "d.d64") [str "d.d64", str "x", str "y"]).length) =
      true ∧
    dispatch (str "dump") (normalize (str "d.d64") [str "d.d64", str "x", str "y"]) = .thrown ∧
    (executeCommand diskEngine programWithOrderfile 1 (str "dump")
      [str "d.d64", str "x", str "y"] (St.initial (hostWith []) [])).events = [] ∧
    (executeCommand diskEngine programWithOrderfile 1 (str "dump")
      [str "d.d64", str "x", str "y"] (St.initial (hostWith []) [])).status = .thrown := by
  decide

/-! ## What the name scan leaves in the derived name -/

theorem toupper_not_lower (c : Nat) : islower (toupper c) = false := by
  unfold islower toupper
  split_ifs <;> simp <;> omega

theorem toupper_eq_dot (c : Nat) (h : toupper c = 46) : c = 46 := by
  unfold toupper at h
  split_ifs at h <;> omega

theorem ispunct_of_toupper (c : Nat) (h : ispunct (toupper c) = false) : ispunct c = false := by
  unfold toupper at h
  split_ifs at h with hc
  · unfold ispunct; simp; omega
  · exact h

theorem ispunct_dot : ispunct 46 = true := by decide

/-- The state of the scan after the loop, in terms of the characters of the
name it was started on: everything from the final `index + 1` on is upper-cased,
and no punctuation stands there except the one `.` that became `endindex`. -/
theorem scanLoop_spec (i : Nat) : ∀ (name : Str) (e : Nat), i ≤ name.length →
    (scanLoop i name e).start ≤ i ∧
    (∀ j, (scanLoop i name e).start ≤ j → j < i →
      (scanLoop i name e).name.getD j 0 = toupper (name.getD j 0)) ∧
    (e ≠ 0 → (scanLoop i name e).endindex = e ∧
      ∀ j, (scanLoop i name e).start ≤ j → j < i → ispunct (toupper (name.getD j 0)) = false) ∧
    (e = 0 →
      ((scanLoop i name e).endindex = 0 ∧
        ∀ j, (scanLoop i name e).start ≤ j → j < i →
          ispunct (toupper (name.getD j 0)) = false) ∨
      ((scanLoop i name e).endindex = 0 ∧ (scanLoop i name e).start = 0 ∧ 0 < i ∧
        toupper (name.getD 0 0) = 46 ∧
        ∀ j, 1 ≤ j → j < i → ispunct (toupper (name.getD j 0)) = false) ∨
      (0 < (scanLoop i name e).endindex ∧
        (scanLoop i name e).start ≤ (scanLoop i name e).endindex ∧
        (scanLoop i name e).endindex < i ∧
        ∀ j, (scanLoop i name e).start ≤ j → j < i → j ≠ (scanLoop i name e).endindex →
          ispunct (toupper (name.getD j 0)) = false)) := by
  induction i with
  | zero =>
    intro name e _
    simp [scanLoop, Scan.start]
  | succ i ih =>
    intro name e hlen
    have hil : i < name.length := by omega
    have hself := getD_set_self name i hil (toupper (name.getD i 0))
    have hup := getD_set_toupper name i
    have hlen1 : i ≤ (name.set i (toupper (name.getD i 0))).length := by
      rw [List.length_set]; omega
    simp only [scanLoop]
    rw [hself]
    by_cases hA : e = 0 ∧ toupper (name.getD i 0) = 46
    · rw [if_pos hA]
      obtain ⟨he, hdot⟩ := hA
      have hge := scanLoop_getD_ge i (name.set i (toupper (name.getD i 0))) i i (le_refl _)
      by_cases hi0 : i = 0
      · subst hi0
        simp only [scanLoop, Scan.start]
        refine ⟨by omega, ?_, fun h => absurd he h, fun _ => Or.inr (Or.inl ?_)⟩
        · intro j _ hj
          have : j = 0 := by omega
          subst this
          exact hself
        · exact ⟨trivial, trivial, by omega, hdot, fun j h1 h2 => by omega⟩
      · obtain ⟨k1, k2, k3, -⟩ := ih (name.set i (toupper (name.getD i 0))) i hlen1
        obtain ⟨k3a, k3b⟩ := k3 hi0
        refine ⟨by omega, ?_, fun h => absurd he h, fun _ => Or.inr (Or.inr ?_)⟩
        · intro j hj1 hj2
          by_cases hji : j = i
          · subst hji; rw [hge, hself]
          · rw [k2 j hj1 (by omega), getD_set_other name i j (by omega)]
        · rw [k3a]
          refine ⟨by omega, k1, by omega, ?_⟩
          intro j hj1 hj2 hj3
          have := k3b j hj1 (by omega)
          rw [hup] at this
          exact this
    · rw [if_neg hA]
      by_cases hB : ispunct (toupper (name.getD i 0)) = true
      · rw [if_pos hB]
        simp only [Scan.start]
        refine ⟨le_refl _, fun j h1 h2 => by omega, fun _ => ⟨trivial, fun j h1 h2 => by omega⟩,
          fun he => Or.inl ⟨he, fun j h1 h2 => by omega⟩⟩
      · rw [if_neg hB]
        rw [Bool.not_eq_true] at hB
        obtain ⟨k1, k2, k3, k4⟩ := ih (name.set i (toupper (name.getD i 0))) e hlen1
        have hge := scanLoop_getD_ge i (name.set i (toupper (name.getD i 0))) e i (le_refl _)
        refine ⟨by omega, ?_, ?_, ?_⟩
        · intro j hj1 hj2
          by_cases hji : j = i
          · subst hji; rw [hge, hself]
          · rw [k2 j hj1 (by omega), getD_set_other name i j (by omega)]
        · intro he
          obtain ⟨k3a, k3b⟩ := k3 he
          refine ⟨k3a, ?_⟩
          intro j hj1 hj2
          by_cases hji : j = i
          · subst hji; exact hB
          · have := k3b j hj1 (by omega)
            rw [hup] at this
            exact this
        · intro he
          rcases k4 he with ⟨q1, q2⟩ | ⟨q1, q2, q3, q4, q5⟩ | ⟨q1, q2, q3, q4⟩
          · refine Or.inl ⟨q1, ?_⟩
            intro j hj1 hj2
            by_cases hji : j = i
            · subst hji; exact hB
            · have := q2 j hj1 (by omega)
              rw [hup] at this
              exact this
          · refine Or.inr (Or.inl ⟨q1, q2, by omega, ?_, ?_⟩)
            · rw [hup] at q4; exact q4
            · intro j hj1 hj2
              by_cases hji : j = i
              · subst hji; exact hB
              · have := q5 j hj1 (by omega)
                rw [hup] at this
                exact this
          · refine Or.inr (Or.inr ⟨q1, q2, by omega, ?_⟩)
            intro j hj1 hj2 hj3
            by_cases hji : j = i
            · subst hji; exact hB
            · have := q4 j hj1 (by omega) hj3
              rw [hup] at this
              exact this

theorem mem_take_drop (l : Str) (a k c : Nat) (h : c ∈ (l.drop a).take k) :
    ∃ j, a ≤ j ∧ j < a + k ∧ j < l.length ∧ l.getD j 0 = c := by
  obtain ⟨n, hn, hc⟩ := List.mem_iff_getElem.mp h
  have hn2 : n < k ∧ n < l.length - a := by
    simp [List.length_take, List.length_drop] at hn
    exact hn
  refine ⟨a + n, by omega, by omega, by omega, ?_⟩
  rw [List.getD_eq_getElem l 0 (show a + n < l.length by omega)]
  rw [← hc]
  simp [List.getElem_take, List.getElem_drop]

theorem mem_drop_index (l : Str) (a c : Nat) (h : c ∈ l.drop a) :
    ∃ j, a ≤ j ∧ j < l.length ∧ l.getD j 0 = c := by
  have h2 : c ∈ (l.drop a).take l.length := by
    rw [List.take_of_length_le (by simp)]
    exact h
  obtain ⟨j, h1, -, h3, h4⟩ := mem_take_drop l a l.length c h2
  exact ⟨j, h1, h3, h4⟩

theorem Scan.result_subset (sc : Scan) (c : Nat) (h : c ∈ sc.result) :
    c ∈ sc.name.drop sc.start := by
  unfold Scan.result substr1 substr2 at h
  split_ifs at h
  · exact h
  · exact h
  · exact List.mem_of_mem_take h

/-- Every character of the derived name is an upper-cased character of the file
name. -/
theorem engineName_no_lower (f : Str) : ∀ c ∈ engineName f, islower c = false := by
  intro c hc
  have hs := scanLoop_spec f.length f 0 (le_refl _)
  have hl : (scanName f).name.length = f.length := scanLoop_length _ _ _
  obtain ⟨j, h1, h2, h3⟩ := mem_drop_index _ _ _ (Scan.result_subset _ _ hc)
  rw [hl] at h2
  have := hs.2.1 j h1 h2
  have e : (scanName f).name.getD j 0 = toupper (f.getD j 0) := this
  rw [← h3, e]
  exact toupper_not_lower _

theorem dotForm_of_scan (f : Str) (h0 : 0 < f.length) (hd : toupper (f.getD 0 0) = 46)
    (hr : ∀ j, 1 ≤ j → j < f.length → ispunct (toupper (f.getD j 0)) = false) :
    dotForm f = true := by
  cases f with
  | nil => simp at h0
  | cons a rest =>
    have ha : a = 46 := toupper_eq_dot a (by simpa using hd)
    subst ha
    simp only [dotForm, List.all_eq_true]
    intro c hc
    obtain ⟨n, hn, hcn⟩ := List.mem_iff_getElem.mp hc
    have := hr (n + 1) (by omega) (by simp; omega)
    have e : (46 :: rest).getD (n + 1) 0 = c := by
      rw [List.getD_eq_getElem _ 0 (show n + 1 < (46 :: rest).length by simp; omega)]
      simpa using hcn
    rw [e] at this
    simp [ispunct_of_toupper c this]

/-- Unless the file name is a `.` followed by no punctuation, the derived name
holds no punctuation character. -/
theorem engineName_no_punct (f : Str) (h : dotForm f = false) :
    ∀ c ∈ engineName f, ispunct c = false := by
  intro c hc
  have hs := scanLoop_spec f.length f 0 (le_refl _)
  have hl : (scanName f).name.length = f.length := scanLoop_length _ _ _
  obtain ⟨s1, s2, -, s4⟩ := hs
  rcases s4 rfl with ⟨q1, q2⟩ | ⟨q1, q2, q3, q4, q5⟩ | ⟨q1, q2, q3, q4⟩
  · obtain ⟨j, h1, h2, h3⟩ := mem_drop_index _ _ _ (Scan.result_subset _ _ hc)
    rw [hl] at h2
    have e : (scanName f).name.getD j 0 = toupper (f.getD j 0) := s2 j h1 h2
    rw [← h3, e]
    exact q2 j h1 h2
  · rw [dotForm_of_scan f q3 q4 q5] at h
    exact absurd h (by decide)
  · have hne : (scanName f).endindex ≠ 0 := by
      have : 0 < (scanName f).endindex := q1
      omega
    have hq2 : (scanName f).start ≤ (scanName f).endindex := q2
    have hcount : ¬ (((scanName f).endindex : Int) - 1 - (((scanName f).start : Int) - 1) < 0) := by
      omega
    have hres : engineName f = ((scanName f).name.drop (scanName f).start).take
        ((scanName f).endindex - (scanName f).start) := by
      unfold engineName Scan.result substr2
      rw [if_neg hne, if_neg hcount]
      congr 1
      omega
    rw [hres] at hc
    obtain ⟨j, h1, h2, h3, h4⟩ := mem_take_drop _ _ _ _ hc
    rw [hl] at h3
    have e : (scanName f).name.getD j 0 = toupper (f.getD j 0) := s2 j h1 h3
    rw [← h4, e]
    exact q4 j h1 h3 (by
      have : j < (scanName f).endindex := by omega
      show j ≠ (scanName f).endindex
      omega)

theorem scanLoop_dotForm (i : Nat) : ∀ (name : Str), 0 < i → i ≤ name.length →
    toupper (name.getD 0 0) = 46 →
    (∀ j, 1 ≤ j → j < i → ispunct (toupper (name.getD j 0)) = false) →
    (scanLoop i name 0).index = none ∧ (scanLoop i name 0).endindex = 0 := by
  induction i with
  | zero => intro name h; omega
  | succ i ih =>
    intro name _ hlen hdot hp
    have hil : i < name.length := by omega
    simp only [scanLoop, true_and]
    rw [getD_set_self name i hil]
    by_cases hi0 : i = 0
    · subst hi0
      rw [if_pos hdot]
      simp [scanLoop]
    · have hnp := hp i (by omega) (by omega)
      have hnd : ¬ (toupper (name.getD i 0) = 46) := by
        intro h
        rw [h, ispunct_dot] at hnp
        exact absurd hnp (by decide)
      rw [if_neg hnd, if_neg (by rw [hnp]; decide)]
      apply ih _ (by omega) (by rw [List.length_set]; omega)
      · rw [getD_set_toupper]; exact hdot
      · intro j h1 h2
        rw [getD_set_toupper]
        exact hp j h1 (by omega)

/-- For a `.` followed by no punctuation the derived name is the whole
upper-cased file name. -/
theorem engineName_dotForm (f : Str) (h : dotForm f = true) : engineName f = upper f := by
  cases f with
  | nil => simp [dotForm] at h
  | cons a rest =>
    have ha : a = 46 := by
      by_contra hne
      unfold dotForm at h
      split at h
      · rename_i heq; simp at heq; exact hne heq.1
      · exact absurd h (by decide)
    subst ha
    simp only [dotForm, List.all_eq_true] at h
    have hdot : toupper ((46 :: rest).getD 0 0) = 46 := by
      show toupper 46 = 46
      decide
    have hp : ∀ j, 1 ≤ j → j < (46 :: rest).length →
        ispunct (toupper ((46 :: rest).getD j 0)) = false := by
      intro j h1 h2
      obtain ⟨k, rfl⟩ : ∃ k, j = k + 1 := ⟨j - 1, by omega⟩
      have hk : k < rest.length := by simpa using h2
      have hm : rest[k] ∈ rest := List.getElem_mem hk
      have hn := h _ hm
      have e : (46 :: rest).getD (k + 1) 0 = rest[k] := by
        rw [List.getD_eq_getElem _ 0 h2]; simp
      rw [e]
      by_contra hc
      rw [Bool.not_eq_false] at hc
      have := ispunct_toupper _ hc
      rw [this] at hc
      simp [hc] at hn
    have hix := scanLoop_dotForm (46 :: rest).length (46 :: rest) (by simp) (le_refl _) hdot hp
    have hcov := scanLoop_covers (46 :: rest).length (46 :: rest) 0 (by simp) (le_refl _) hdot
      (fun j h1 h2 => hp j h1 h2)
    have hl : (scanName (46 :: rest)).name.length = (46 :: rest).length := scanLoop_length _ _ _
    have hname : (scanName (46 :: rest)).name = upper (46 :: rest) := by
      apply List.ext_getElem
      · rw [hl]; simp [upper]
      · intro n h1 h2
        have hn : n < (46 :: rest).length := by rw [← hl]; exact h1
        have := hcov n (by omega) hn
        rw [← List.getD_eq_getElem _ 0 h1, ← List.getD_eq_getElem _ 0 h2, upper_getD]
        exact this
    unfold engineName Scan.result Scan.start
    have h1 : (scanName (46 :: rest)).index = none := hix.1
    have h2 : (scanName (46 :: rest)).endindex = 0 := hix.2
    rw [h1, h2, hname]
    simp [substr1]

theorem handleAddRel_addRelFile_mem (E : Engine D W) (diskfile filename : Str) (recordsize : Int)
    (s : St W) (o : Obj) (name : Str) (type : FileTypes) (r : Int) (data : List Nat)
    (h : Event.addRelFile o name type r data ∈ (handleAddRel E diskfile filename recordsize s).2) :
    name = engineName filename := by
  unfold handleAddRel at h
  dsimp only at h
  split_ifs at h with hl
  · split at h
    · simp at h
    · split_ifs at h
      all_goals
        simp at h
        exact h.2.1
  · simp at h

/-- C18: the name `handleAdd` derives holds no lower-case letter; when the file
name is not a `.` followed only by characters that are not punctuation, the
derived name holds no punctuation character, so no `.` and no `/` or `\`; when
the file name is such a `.` followed by no punctuation, the derived name is the
whole upper-cased file name with its leading dot, as `.PRG` for `.prg`; and the
derived name is the name of every `addFile` call of `handleAdd`. -/
theorem C18_derived_name_characters (E : Engine D W) (diskfile filename : Str) (s : St W) :
    (∀ c ∈ engineName filename, islower c = false) ∧
    (dotForm filename = false →
      ∀ c ∈ engineName filename, ispunct c = false ∧ c ≠ 46 ∧ c ≠ 47 ∧ c ≠ 92) ∧
    (dotForm filename = true → engineName filename = upper filename) ∧
    engineName (str ".prg") = str ".PRG" ∧
    (∀ o name type data,
      Event.addFile o name type data ∈ (handleAdd E diskfile filename s).2 →
        name = engineName filename) := by
  refine ⟨engineName_no_lower filename, ?_, engineName_dotForm filename, by decide, ?_⟩
  · intro h c hc
    have hp := engineName_no_punct filename h c hc
    refine ⟨hp, ?_, ?_, ?_⟩ <;>
      · intro he
        rw [he] at hp
        exact absurd hp (by decide)
  · intro o name type data h
    obtain ⟨_, _, hn, _⟩ := handleAdd_addFile_mem E diskfile filename s o name type data h
    exact hn

/-- Witness of C18: `dir/my_file.prg` is no `.` followed by no punctuation and
its derived name `FILE` holds no punctuation; `.seq` is one and its derived name
is `.SEQ`. -/
theorem C18_derived_name_characters_witness :
    (∀ c ∈ engineName (str "dir/my_file.prg"),
      ispunct c = false ∧ c ≠ 46 ∧ c ≠ 47 ∧ c ≠ 92) ∧
    engineName (str ".seq") = upper (str ".seq") :=
  ⟨(C18_derived_name_characters diskEngine (str "d.d64") (str "dir/my_file.prg")
      (St.initial (hostWith []) [])).2.1 (by decide),
    (C18_derived_name_characters diskEngine (str "d.d64") (str ".seq")
      (St.initial (hostWith []) [])).2.2.1 (by decide)⟩

/-- C13 (as amended): `handleAdd` and `handleAddRel` pass to the engine the name
derived by the scan, which holds no lower-case letter; `handleExtract`,
`handleRemove`, `handleRename` (old and new name), `handleLock` and
`handleUnlock` pass the name they were given, unchanged. -/
theorem C13_names_passed_to_the_engine (E : Engine D W) (diskfile filename newname : Str)
    (recordsize : Int) (s : St W) :
    (∀ o name type data,
      Event.addFile o name type data ∈ (handleAdd E diskfile filename s).2 →
        name = engineName filename ∧ ∀ c ∈ name, islower c = false) ∧
    (∀ o name type r data,
      Event.addRelFile o name type r data ∈ (handleAddRel E diskfile filename recordsize s).2 →
        name = engineName filename ∧ ∀ c ∈ name, islower c = false) ∧
    (∀ o name, Event.extractFile o name ∈ (handleExtract E diskfile filename s).2 →
      name = filename) ∧
    (∀ o name, Event.removeFile o name ∈ (handleRemove E diskfile filename s).2 →
      name = filename) ∧
    (∀ o oldname new, Event.renameFile o oldname new ∈
        (handleRename E diskfile filename newname s).2 →
      oldname = filename ∧ new = newname) ∧
    (∀ o name flag, Event.lockfile o name flag ∈ (handleLock E diskfile filename s).2 →
      name = filename) ∧
    (∀ o name flag, Event.lockfile o name flag ∈ (handleUnlock E diskfile filename s).2 →
      name = filename) := by
  refine ⟨?_, ?_, ?_, ?_, ?_, ?_, ?_⟩
  · intro o name type data h
    obtain ⟨_, _, hn, _⟩ := handleAdd_addFile_mem E diskfile filename s o name type data h
    subst hn
    exact ⟨rfl, engineName_no_lower filename⟩
  · intro o name type r data h
    have hn := handleAddRel_addRelFile_mem E diskfile filename recordsize s o name type r data h
    subst hn
    exact ⟨rfl, engineName_no_lower filename⟩
  · intro o name h
    unfold handleExtract at h; dsimp only at h
    split_ifs at h <;> simp at h <;> exact h.2
  · intro o name h
    unfold handleRemove at h; dsimp only at h
    split_ifs at h <;> simp at h <;> exact h.2
  · intro o oldname new h
    unfold handleRename at h; dsimp only at h
    split_ifs at h <;> simp at h <;> exact h.2
  · intro o name flag h
    unfold handleLock at h; dsimp only at h
    split_ifs at h <;> simp at h <;> exact h.2.1
  · intro o name flag h
    unfold handleUnlock at h; dsimp only at h
    split_ifs at h <;> simp at h <;> exact h.2.1

/-- Witness of C13: adding `game.prg` passes `GAME`; removing `game` passes
`game`. -/
theorem C13_names_passed_to_the_engine_witness :
    (str "GAME" = engineName (str "game.prg") ∧ ∀ c ∈ str "GAME", islower c = false) ∧
    str "game" = str "game" :=
  ⟨((C13_names_passed_to_the_engine diskEngine (str "d.d64") (str "game.prg") []
      0 (St.initial (hostWith [str "game.prg"]) [])).1 .disk (str "GAME") FileTypes.PRG [1, 8]
      (by decide)),
    ((C13_names_passed_to_the_engine diskEngine (str "d.d64") (str "game") []
      0 (St.initial hostLocked [])).2.2.2.1 .disk (str "game") (by decide))⟩

/-- C13 (counterexample): `remove d.d64 game` hands the name `game`, with its
lower-case letters, to `removeFile`; the image holds `GAME`, and the call fails. -/
theorem C13_remove_passes_lower_case :
    (handleRemove diskEngine (str "d.d64") (str "game") (St.initial hostLocked [])).2 =
      [.load .disk (str "d.d64") true, .removeFile .disk (str "game"),
        .cerr .couldNotRemove] ∧
    (str "game").any islower = true ∧
    (handleLock diskEngine (str "d.d64") (str "game") (St.initial hostLocked [])).2 =
      [.load .disk (str "d.d64") true, .lockfile .disk (str "game") true,
        .cerr .couldNotLock] := by
  decide

end D64
